import Mathlib

/-!
Verification of the multi-strategy product-search subsystem of the
alexis-voice-agent Cloudflare worker (src/index.ts): query normalization,
scored fan-out search with brand post-filtering, the FIFO-bounded caches,
and the sliding-window rate limiter.

Strings are modelled as `List Char`.  JavaScript regular expressions are
embedded as character-level scanners that reproduce the leftmost-match and
backtracking behaviour of each concrete pattern used by the source (the
patterns are simple enough that their match sets are computed exactly).
JS `\s` is modelled by the common ASCII whitespace characters and
`toLowerCase`/`toUpperCase` by ASCII case conversion, which agree with JS
on every character the source's patterns can interact with.
-/

set_option autoImplicit false

abbrev Str := List Char

def strL (s : String) : Str := s.toList

/-- Whitespace class used for JS `\s`, `trim()` and whitespace splitting. -/
def jsSpace (c : Char) : Bool :=
  c = ' ' || c = '\t' || c = '\n' || c = '\r' || c = '\x0b' || c = '\x0c'

/-- JS `\w` word-character class `[A-Za-z0-9_]`. -/
def isWordCharJs (c : Char) : Bool :=
  ('a' ≤ c && c ≤ 'z') || ('A' ≤ c && c ≤ 'Z') || ('0' ≤ c && c ≤ '9') || c = '_'

def toLowerStr (s : Str) : Str := s.map Char.toLower

def upperStr (s : Str) : Str := s.map Char.toUpper

/-- JS `String.prototype.trim`: strip leading and trailing whitespace. -/
def trimJs (s : Str) : Str :=
  ((s.dropWhile jsSpace).reverse.dropWhile jsSpace).reverse

/-- Splitting on a character class with a `+` quantifier (e.g. `split(/\s+/)`):
separator runs delimit the pieces, so that only the string's ends can
contribute empty pieces, exactly as in JS. -/
def jsSplitOn (p : Char → Bool) : Str → List Str
  | [] => [[]]
  | c :: rest =>
    let r := jsSplitOn p rest
    if p c then
      match rest with
      | c2 :: _ => if p c2 then r else [] :: r
      | [] => [] :: r
    else (c :: r.headD []) :: r.tail

/-- Replacement of `/\s+/g` by a single space. -/
def collapseWs : Str → Str
  | [] => []
  | c :: rest =>
    if jsSpace c then
      match rest with
      | c2 :: _ => if jsSpace c2 then collapseWs rest else ' ' :: collapseWs rest
      | [] => [' ']
    else c :: collapseWs rest

/-- Order-preserving deduplication, as `[...new Set(xs)]` (first occurrence
kept).  Structural recursion on a fuel argument (initialised to the list's
length, which the recursion can never exhaust, since each step removes at
least the head) keeps the definition kernel-reducible. -/
def dedupFirstGo {α : Type} [DecidableEq α] : Nat → List α → List α
  | _, [] => []
  | 0, l => l
  | fuel + 1, a :: rest => a :: dedupFirstGo fuel (rest.filter (fun x => x ≠ a))

def dedupFirst {α : Type} [DecidableEq α] (l : List α) : List α :=
  dedupFirstGo l.length l

/-- JS `Array.prototype.join(' ')`. -/
def joinSpace : List Str → Str
  | [] => []
  | [w] => w
  | w :: rest => w ++ ' ' :: joinSpace rest

-- ## JS `Map` as an insertion-ordered association list
-- `Map.prototype.set` updates an existing key in place (keeping its insertion
-- position) and otherwise appends; `get` returns the stored value; `delete`
-- removes the key; iteration order is insertion order.

def mapGet {κ α : Type} [DecidableEq κ] : List (κ × α) → κ → Option α
  | [], _ => none
  | p :: rest, k => if p.1 = k then some p.2 else mapGet rest k

def mapSet {κ α : Type} [DecidableEq κ] : List (κ × α) → κ → α → List (κ × α)
  | [], k, v => [(k, v)]
  | p :: rest, k, v => if p.1 = k then (k, v) :: rest else p :: mapSet rest k v

def mapDelete {κ α : Type} [DecidableEq κ] (m : List (κ × α)) (k : κ) : List (κ × α) :=
  m.filter (fun p => p.1 ≠ k)

def mapKeys {κ α : Type} (m : List (κ × α)) : List κ := m.map Prod.fst

-- ## Constants from the source

def VOICE_SEARCH_DEFAULT : Int := 5

def VOICE_SEARCH_MAX : Int := 10

def RATE_LIMIT_REQUESTS : Nat := 100

def RATE_LIMIT_WINDOW_MS : Int := 60000

def PRODUCT_CACHE_MAX : Nat := 100

def SEARCH_CACHE_MAX : Nat := 50

/-- Stop words removed from searches (the source's literal list; the source
stores it in a `Set`, so the duplicated entries are harmless). -/
def SEARCH_STOP_WORDS : List Str :=
  (["the", "a", "an", "and", "or", "but", "in", "on", "at", "to", "for",
    "of", "with", "by", "from", "as", "is", "was", "are", "were", "been",
    "be", "have", "has", "had", "do", "does", "did", "will", "would", "could",
    "should", "may", "might", "must", "shall", "can", "need", "dare", "ought",
    "used", "i", "you", "he", "she", "it", "we", "they", "what", "which",
    "who", "whom", "this", "that", "these", "those", "am", "is", "are",
    "looking", "want", "need", "find", "search", "show", "get", "any", "some",
    "series", "line", "model", "type", "kind", "version", "gen", "generation"
   ].map strL)

/-- Tech brand names preserved in searches. -/
def TECH_BRANDS : List Str :=
  (["nvidia", "geforce", "rtx", "gtx", "radeon", "amd", "intel", "arc",
    "asus", "msi", "gigabyte", "evga", "zotac", "palit", "pny", "sapphire",
    "corsair", "kingston", "crucial", "samsung", "seagate", "western", "sandisk",
    "logitech", "razer", "steelseries", "hyperx", "cooler", "nzxt", "thermaltake",
    "dell", "hp", "lenovo", "acer", "asus", "apple", "microsoft", "sony",
    "lg", "benq", "viewsonic", "philips", "aoc", "alienware", "predator"
   ].map strL)

-- ## Query normalization (normalizeSearchQuery)

/-- Removal of `REGEX_QUOTES` `/['"]/g`. -/
def removeQuotes (s : Str) : Str :=
  s.filter (fun c => ¬(c = Char.ofNat 39 || c = Char.ofNat 34))

/-- Replacement of `REGEX_SPECIAL_CHARS` `/[^\w\s\-\.]/g` by a space. -/
def specialsToSpace (s : Str) : Str :=
  s.map (fun c => if isWordCharJs c || jsSpace c || c = '-' || c = '.' then c else ' ')

/-- Test of `REGEX_HAS_DIGIT` `/\d/`. -/
def hasDigitStr (s : Str) : Bool := s.any Char.isDigit

/-- Test of `REGEX_NUMERIC` `/^\d+$/`. -/
def isNumericStr (s : Str) : Bool := !s.isEmpty && s.all Char.isDigit

/-- Word boundary `\b` immediately before a word character, given the
preceding character (`none` at the start of the string). -/
def boundaryBefore : Option Char → Bool
  | none => true
  | some c => !isWordCharJs c

def gpuPrefixes : List Str := (["rtx", "gtx", "radeon"].map strL)

/-- Continuation `\s*(series|line)?\b` of `REGEX_GPU_SERIES` after its two
digits (`s` is the remainder of the string).  A match exists iff the next
character is absent or a non-word character (empty group, possibly after
zero of the optional spaces), or `series`/`line` follows literally and ends
at a word boundary. -/
def gpuTailOk (s : Str) : Bool :=
  match s with
  | [] => true
  | c :: _ =>
    !isWordCharJs c ||
    ((strL "series").isPrefixOf s && nonWordAt (s.drop 6)) ||
    ((strL "line").isPrefixOf s && nonWordAt (s.drop 4))
where
  nonWordAt : Str → Bool
    | [] => true
    | c :: _ => !isWordCharJs c

/-- Attempt of `REGEX_GPU_SERIES` at the current position (which must be at a
word boundary): one of the alternation's prefixes, then `\s*`, then exactly
two digits, then `gpuTailOk`.  Returns the two capture groups. -/
def gpuMatchAt (s : Str) : Option (Str × Str) :=
  gpuPrefixes.findSome? fun pre =>
    if pre.isPrefixOf s then
      match (s.drop pre.length).dropWhile jsSpace with
      | d1 :: d2 :: tail =>
        if d1.isDigit && d2.isDigit && gpuTailOk tail then some (pre, [d1, d2])
        else none
      | _ => none
    else none

/-- Leftmost match of `REGEX_GPU_SERIES` `/\b(rtx|gtx|radeon)\s*(\d{2})\s*(series|line)?\b/i`,
returning the two capture groups (the pattern is only ever applied to an
already-lowercased string, so the `i` flag needs no separate treatment). -/
def findGpuSeries (s : Str) : Option (Str × Str) :=
  go none s
where
  go : Option Char → Str → Option (Str × Str)
    | _, [] => none
    | prev, c :: rest =>
      if boundaryBefore prev then
        match gpuMatchAt (c :: rest) with
        | some r => some r
        | none => go (some c) rest
      else go (some c) rest

/-- Leftmost match of `REGEX_MEM_SPEC` `/(\d+)\s*(gb|tb|mb)/i`, returning the
two capture groups.  A match starting at a digit necessarily takes the whole
digit run and the whole space run, since neither a digit nor a space can
begin the unit alternative. -/
def findMemSpec : Str → Option (Str × Str)
  | [] => none
  | c :: rest =>
    if c.isDigit then
      let digits := (c :: rest).takeWhile Char.isDigit
      match ((c :: rest).dropWhile Char.isDigit).dropWhile jsSpace with
      | u1 :: u2 :: _ =>
        if (u1.toLower = 'g' || u1.toLower = 't' || u1.toLower = 'm') && u2.toLower = 'b'
        then some (digits, [u1, u2])
        else findMemSpec rest
      | _ => findMemSpec rest
    else findMemSpec rest

def gpuSuffixes : List Str := (["60", "70", "80", "90", "70 ti", "80 super"].map strL)

structure NormalizedQuery where
  original : Str
  terms : List Str
  variations : List Str
deriving DecidableEq, Repr

/-- Embedding of `normalizeSearchQuery`.  The pushes into `variations` are
written as list concatenations in the source's push order; variation 6
(`if (!variations.includes(term)) variations.push(term)`) consults the
array built so far, hence the fold. -/
def normalizeSearchQuery (rawQuery : Str) : NormalizedQuery :=
  let original := toLowerStr (trimJs rawQuery)
  let cleaned := trimJs (collapseWs (specialsToSpace (removeQuotes original)))
  let allTerms := jsSplitOn jsSpace cleaned
  let terms := allTerms.filter (fun term =>
    if term.length < 2 then false
    else if SEARCH_STOP_WORDS.contains term then false
    else true)
  let v1 : List Str := if cleaned.isEmpty then [] else [cleaned]
  let v2 : List Str :=
    if terms.length > 1 then
      let termQuery := joinSpace terms
      if termQuery ≠ cleaned then [termQuery] else []
    else []
  let v3 : List Str :=
    match findGpuSeries original with
    | some (pre, seriesNum) =>
      gpuSuffixes.map (fun suffix => upperStr pre ++ [' '] ++ seriesNum ++ suffix)
    | none => []
  let v4 : List Str :=
    match findMemSpec original with
    | some (size, unit) => [size ++ upperStr unit, size ++ [' '] ++ upperStr unit]
    | none => []
  let foundBrands := terms.filter (fun t => TECH_BRANDS.contains t)
  let nonBrandTerms := terms.filter (fun t =>
    !TECH_BRANDS.contains t && !SEARCH_STOP_WORDS.contains t)
  let v5 : List Str :=
    if foundBrands.length > 0 && nonBrandTerms.length > 0 then
      foundBrands.flatMap (fun brand =>
        (nonBrandTerms.take 2).map (fun term => brand ++ [' '] ++ term))
    else []
  let varsBefore := v1 ++ v2 ++ v3 ++ v4 ++ v5
  let varsAll := terms.foldl (fun acc term =>
    if (TECH_BRANDS.contains term || hasDigitStr term) && !acc.contains term
    then acc ++ [term] else acc) varsBefore
  { original := original, terms := terms, variations := dedupFirst varsAll }

-- ## Speech-friendly name transformation (makeSpeechFriendly)

/-- Word boundary `\b` between the last matched character (a word character
in every pattern that uses this) and the remainder of the string. -/
def nonWordStart : Str → Bool
  | [] => true
  | c :: _ => !isWordCharJs c

/-- One global-replace pass (`String.prototype.replace` with a `g` regex):
scan left to right; where the matcher fires, emit its replacement and resume
after the consumed segment, otherwise copy one character.  The previous
character of the original string is threaded for `\b` lookbehind. -/
def replacePassGo (m : Option Char → Str → Option (Nat × Str)) :
    Nat → Option Char → Str → Str
  | _, _, [] => []
  | 0, _, s => s
  | fuel + 1, prev, c :: rest =>
    match m prev (c :: rest) with
    | some (n, repl) =>
      if 1 ≤ n then
        repl ++ replacePassGo m fuel (((c :: rest).take n).getLast?) ((c :: rest).drop n)
      else c :: replacePassGo m fuel (some c) rest
    | none => c :: replacePassGo m fuel (some c) rest

/-- One global-replace pass over a string; the fuel (one unit per consumed
character at least) starts at the string's length and cannot run out. -/
def applyPass (m : Option Char → Str → Option (Nat × Str)) (s : Str) : Str :=
  replacePassGo m s.length none s

/-- Matcher of `REGEX_G_MODEL` `/\bG(\d+)\b/g` (case-sensitive), replacement `G $1`. -/
def matchGModel (prev : Option Char) (s : Str) : Option (Nat × Str) :=
  match s with
  | 'G' :: rest =>
    if boundaryBefore prev then
      let ds := rest.takeWhile Char.isDigit
      if ds.length ≥ 1 && nonWordStart (rest.drop ds.length) then
        some (1 + ds.length, 'G' :: ' ' :: ds)
      else none
    else none
  | _ => none

/-- Matcher of `/(\d+)\s*GB\b/gi` and its TB/MB analogues, replacement
`$1 word`.  The digit run and space run are necessarily maximal, since
neither a digit nor a space can begin the unit. -/
def matchUnit (u1 u2 : Char) (word : Str) (_prev : Option Char) (s : Str) : Option (Nat × Str) :=
  match s with
  | c :: _ =>
    if c.isDigit then
      let ds := s.takeWhile Char.isDigit
      let sp := (s.drop ds.length).takeWhile jsSpace
      match s.drop (ds.length + sp.length) with
      | a :: b :: tail =>
        if a.toLower = u1 && b.toLower = u2 && nonWordStart tail then
          some (ds.length + sp.length + 2, ds ++ ' ' :: word)
        else none
      | _ => none
    else none
  | [] => none

/-- Matcher of `REGEX_DDR` `/\bDDR(\d+)\b/gi`, replacement `D D R $1`. -/
def matchDDR (prev : Option Char) (s : Str) : Option (Nat × Str) :=
  if boundaryBefore prev then
    match s with
    | a :: b :: c :: rest =>
      if a.toLower = 'd' && b.toLower = 'd' && c.toLower = 'r' then
        let ds := rest.takeWhile Char.isDigit
        if ds.length ≥ 1 && nonWordStart (rest.drop ds.length) then
          some (3 + ds.length, strL "D D R " ++ ds)
        else none
      else none
    | _ => none
  else none

/-- Matcher of `REGEX_PROC_FULL` `/\bi(\d+)-(\d+)G(\d+)\b/gi`, replacement
`i$1 $2 G $3`. -/
def matchProcFull (prev : Option Char) (s : Str) : Option (Nat × Str) :=
  if boundaryBefore prev then
    match s with
    | c :: rest =>
      if c.toLower = 'i' then
        let d1 := rest.takeWhile Char.isDigit
        match rest.drop d1.length with
        | '-' :: rest2 =>
          let d2 := rest2.takeWhile Char.isDigit
          match rest2.drop d2.length with
          | g :: rest3 =>
            if g.toLower = 'g' && d1.length ≥ 1 && d2.length ≥ 1 then
              let d3 := rest3.takeWhile Char.isDigit
              if d3.length ≥ 1 && nonWordStart (rest3.drop d3.length) then
                some (1 + d1.length + 1 + d2.length + 1 + d3.length,
                      'i' :: (d1 ++ ' ' :: (d2 ++ strL " G " ++ d3)))
              else none
            else none
          | _ => none
        | _ => none
      else none
    | [] => none
  else none

/-- Matcher of `REGEX_PROC_SHORT` `/\bi(\d+)-(\d+)\b/gi`, replacement `i$1 $2`. -/
def matchProcShort (prev : Option Char) (s : Str) : Option (Nat × Str) :=
  if boundaryBefore prev then
    match s with
    | c :: rest =>
      if c.toLower = 'i' then
        let d1 := rest.takeWhile Char.isDigit
        match rest.drop d1.length with
        | '-' :: rest2 =>
          let d2 := rest2.takeWhile Char.isDigit
          if d1.length ≥ 1 && d2.length ≥ 1 && nonWordStart (rest2.drop d2.length) then
            some (1 + d1.length + 1 + d2.length, 'i' :: (d1 ++ ' ' :: d2))
          else none
        | _ => none
      else none
    | [] => none
  else none

/-- Matcher of a case-sensitive literal-word pattern `/\bWORD\b/g`. -/
def matchAcronym (word repl : Str) (prev : Option Char) (s : Str) : Option (Nat × Str) :=
  if boundaryBefore prev && word.isPrefixOf s && nonWordStart (s.drop word.length) then
    some (word.length, repl)
  else none

/-- Embedding of `makeSpeechFriendly`: the source's replace chain, in order. -/
def makeSpeechFriendly (name : Str) : Str :=
  applyPass (matchAcronym (strL "HDMI") (strL "H D M I"))
    (applyPass (matchAcronym (strL "USB") (strL "U S B"))
      (applyPass (matchAcronym (strL "LED") (strL "L E D"))
        (applyPass (matchAcronym (strL "LCD") (strL "L C D"))
          (applyPass (matchAcronym (strL "HDD") (strL "H D D"))
            (applyPass (matchAcronym (strL "SSD") (strL "S S D"))
              (applyPass matchProcShort
                (applyPass matchProcFull
                  (applyPass matchDDR
                    (applyPass (matchUnit 'm' 'b' (strL "megabytes"))
                      (applyPass (matchUnit 't' 'b' (strL "terabytes"))
                        (applyPass (matchUnit 'g' 'b' (strL "gigabytes"))
                          (applyPass matchGModel name))))))))))))

-- ## Listing truncation (shortenForListing)

/-- Separator class of `name.split(/[\s,\-–]+/)`. -/
def listingSep (c : Char) : Bool :=
  jsSpace c || c = ',' || c = '-' || c = Char.ofNat 0x2013

/-- Test of `/^\d+\s*(GB|TB|MB|mm|cm|MHz|W|mAh)/i`. -/
def memUnitTest (w : Str) : Bool :=
  match w with
  | [] => false
  | c :: _ =>
    c.isDigit &&
    (let after := toLowerStr ((w.dropWhile Char.isDigit).dropWhile jsSpace)
     (["gb", "tb", "mb", "mm", "cm", "mhz", "w", "mah"].map strL).any
       (fun u => u.isPrefixOf after))

/-- Test of `/^\d+x\d+/i`. -/
def dimTest (w : Str) : Bool :=
  match w with
  | [] => false
  | c :: _ =>
    c.isDigit &&
    (match w.dropWhile Char.isDigit with
     | x :: d :: _ => (x.toLower = 'x') && d.isDigit
     | _ => false)

/-- Test of `/^(RGB|LED|LCD|USB|HDMI|DDR\d)/i`. -/
def acroTest (w : Str) : Bool :=
  let lw := toLowerStr w
  (["rgb", "led", "lcd", "usb", "hdmi"].map strL).any (fun u => u.isPrefixOf lw) ||
  ((strL "ddr").isPrefixOf lw &&
    (match lw.drop 3 with
     | d :: _ => d.isDigit
     | [] => false))

def specTokenTest (w : Str) : Bool := memUnitTest w || dimTest w || acroTest w

/-- Embedding of `shortenForListing`. -/
def shortenForListing (name : Str) : Str :=
  let words := (jsSplitOn listingSep name).filter (fun w => w.length > 0)
  let cutoff :=
    match words.findIdx? specTokenTest with
    | some i => max 3 i
    | none => words.length
  joinSpace (words.take (min cutoff 5))

/-- Number of whitespace-delimited tokens of a string. -/
def countWsTokens (s : Str) : Nat :=
  ((jsSplitOn jsSpace s).filter (fun w => w.length > 0)).length

-- ## Sliding-window rate limiter (checkRateLimit)

structure RLResult where
  allowed : Bool
  remaining : Nat
  resetMs : Int
deriving DecidableEq, Repr

abbrev RLMap := List (Str × List Int)

/-- Embedding of `checkRateLimit`.  The per-isolate `rateLimitMap` is passed
and returned explicitly; `Math.random() < 0.01` (which gates the periodic
sweep) is made an explicit boolean input `sweep`. -/
def checkRateLimit (m : RLMap) (ip : Str) (now : Int) (sweep : Bool) : RLResult × RLMap :=
  let windowStart := now - RATE_LIMIT_WINDOW_MS
  let timestamps0 := (mapGet m ip).getD []
  let timestamps1 := timestamps0.filter (fun ts => windowStart < ts)
  let allowed := timestamps1.length < RATE_LIMIT_REQUESTS
  let timestamps2 := if allowed then timestamps1 ++ [now] else timestamps1
  let m1 := if allowed then mapSet m ip timestamps2 else m
  let resetMs : Int :=
    if timestamps2.length > 0 then
      max 0 (timestamps2.headD 0 + RATE_LIMIT_WINDOW_MS - now)
    else 0
  let m2 := if sweep then
      m1.filter (fun kv => !(kv.2.all (fun t => t ≤ windowStart)))
    else m1
  ({ allowed := allowed,
     remaining := RATE_LIMIT_REQUESTS - timestamps2.length,
     resetMs := resetMs }, m2)

/-- Sequence of admission decisions for one client: each call supplies its
`Date.now()` value and its sweep coin flip. -/
def rlRunGo (ip : Str) (m : RLMap) : List (Int × Bool) → List Bool
  | [] => []
  | c :: rest =>
    let r := checkRateLimit m ip c.1 c.2
    r.1.allowed :: rlRunGo ip r.2 rest

def rlRun (ip : Str) (calls : List (Int × Bool)) : List Bool := rlRunGo ip [] calls

-- ## Bounded FIFO cache insertion (getProductInfo / executeSearch)

/-- The insertion step shared by the product cache and the search cache:
`if (cache.size >= MAX) cache.delete(cache.keys().next().value); cache.set(key, value)`. -/
def cachePut {κ α : Type} [DecidableEq κ] (maxSize : Nat) (m : List (κ × α)) (k : κ) (v : α) :
    List (κ × α) :=
  let m1 :=
    if m.length ≥ maxSize then
      match m.head? with
      | some p => mapDelete m p.1
      | none => m
    else m
  mapSet m1 k v

structure ProductCacheEntry where
  name : Str
  price : Str
  time : Int
deriving DecidableEq, Repr

structure SearchCacheEntry where
  ids : List Nat
  time : Int
deriving DecidableEq, Repr

/-- The product-cache insertion in `getProductInfo` (bound `PRODUCT_CACHE_MAX`). -/
def productCacheInsert (m : List (Nat × ProductCacheEntry)) (id : Nat) (e : ProductCacheEntry) :
    List (Nat × ProductCacheEntry) :=
  cachePut PRODUCT_CACHE_MAX m id e

/-- The search-cache insertion in `executeSearch` (bound `SEARCH_CACHE_MAX`). -/
def searchCacheInsert (m : List (Str × SearchCacheEntry)) (k : Str) (e : SearchCacheEntry) :
    List (Str × SearchCacheEntry) :=
  cachePut SEARCH_CACHE_MAX m k e

-- ## Product model and searchProducts pipeline

structure LangName where
  id : Nat
  value : Str
deriving DecidableEq, Repr

/-- PrestaShop's multilingual name field: either a plain string or an array
of `{ id, value }` language entries. -/
inductive NameField
  | strName (s : Str)
  | multiName (l : List LangName)
deriving DecidableEq, Repr

def unknownName : Str := strL "Unknown"

/-- Embedding of `extractProductName` (`||` falls through on empty strings,
which are falsy in JS). -/
def extractProductName : NameField → Str
  | .strName s => if s.isEmpty then unknownName else s
  | .multiName l =>
    let v1 := ((l.find? (fun n => n.id = 1)).map LangName.value).getD []
    if !v1.isEmpty then v1
    else
      let v0 := (l.head?.map LangName.value).getD []
      if !v0.isEmpty then v0 else unknownName

structure PSProduct where
  id : Nat
  name : NameField
  price : Str
deriving DecidableEq, Repr

/-- Upstream behaviour during one `searchProducts` invocation, as pure
functions: the direct `/products/{id}` lookup of the numeric fast path
(`none` covers both not-found and a thrown fetch error, which the source
treats identically), `executeSearch`'s id list per query (an upstream
failure is already converted to `[]` inside `executeSearch`), and the batch
`/products?filter[id]=[...]` fetch. -/
structure SearchBackend where
  direct : Str → Option PSProduct
  search : Str → List Nat
  details : List Nat → List PSProduct

/-- Seeding loop: `for (const id of firstResult) productScores.set(id, 1)`. -/
def scoreSeed (m : List (Nat × Nat)) (ids : List Nat) : List (Nat × Nat) :=
  ids.foldl (fun m id => mapSet m id 1) m

/-- Increment loop: `productScores.set(id, (productScores.get(id) || 0) + 1)`. -/
def scoreAdd (m : List (Nat × Nat)) (ids : List Nat) : List (Nat × Nat) :=
  ids.foldl (fun m id => mapSet m id ((mapGet m id).getD 0 + 1)) m

/-- Steps 2-4 of the search: execute variation 0, then variations 1-3 when
more results are needed, then variations 4-6 as a last resort.  Returns the
score map and the list of queries handed to `executeSearch`, in order. -/
def spFanout (searchFn : Str → List Nat) (vars : List Str) (hasBrandTerms : Bool) :
    List (Nat × Nat) × List Str :=
  let v0 := vars.headD []
  let firstResult := searchFn v0
  let m0 := scoreSeed [] firstResult
  let needMoreResults := m0.length < (if hasBrandTerms then 10 else 5)
  let step1 :=
    if needMoreResults ∧ vars.length > 1 then
      let additionalVariations := (vars.drop 1).take 3
      (additionalVariations.foldl (fun m v => scoreAdd m (searchFn v)) m0, additionalVariations)
    else (m0, [])
  let step2 :=
    if step1.1.length = 0 ∧ vars.length > 4 then
      let fallbackVariations := (vars.drop 4).take 3
      (fallbackVariations.foldl (fun m v => scoreAdd m (searchFn v)) step1.1,
       step1.2 ++ fallbackVariations)
    else step1
  (step2.1, v0 :: step2.2)

/-- JS `Array.prototype.slice(0, e)` (a negative end counts from the end). -/
def jsSliceEnd {α : Type} (e : Int) (l : List α) : List α :=
  l.take (if e < 0 then ((l.length : Int) + e).toNat else e.toNat)

/-- Stable insertion of an entry below all strictly higher-scored ones,
matching the stable JS `sort((a, b) => b[1] - a[1])`. -/
def insertDesc (x : Nat × Nat) : List (Nat × Nat) → List (Nat × Nat)
  | [] => [x]
  | y :: ys => if y.2 > x.2 then y :: insertDesc x ys else x :: y :: ys

def sortByScoreDesc : List (Nat × Nat) → List (Nat × Nat)
  | [] => []
  | x :: xs => insertDesc x (sortByScoreDesc xs)

def spLimit (limitArg : Option Int) : Int :=
  min (match limitArg with
       | some v => if v = 0 then VOICE_SEARCH_DEFAULT else v
       | none => VOICE_SEARCH_DEFAULT)
    VOICE_SEARCH_MAX

def spBrandTerms (rawQuery : Str) : List Str :=
  (normalizeSearchQuery rawQuery).terms.filter (fun t => TECH_BRANDS.contains t)

def spHasBrand (rawQuery : Str) : Bool := (spBrandTerms rawQuery).length > 0

def spScores (B : SearchBackend) (rawQuery : Str) : List (Nat × Nat) :=
  (spFanout B.search (normalizeSearchQuery rawQuery).variations (spHasBrand rawQuery)).1

def spSearchTrace (B : SearchBackend) (rawQuery : Str) : List Str :=
  (spFanout B.search (normalizeSearchQuery rawQuery).variations (spHasBrand rawQuery)).2

def spFetchLimit (rawQuery : Str) (limit : Int) : Int :=
  if spHasBrand rawQuery then max (limit * 3) 15 else limit

def spSortedIds (B : SearchBackend) (rawQuery : Str) (limit : Int) : List Nat :=
  (jsSliceEnd (spFetchLimit rawQuery limit) (sortByScoreDesc (spScores B rawQuery))).map Prod.fst

def spFetched (B : SearchBackend) (rawQuery : Str) (limit : Int) : List PSProduct :=
  B.details (spSortedIds B rawQuery limit)

/-- The re-ordering map `new Map(search.products.map(p => [p.id, p]))`. -/
def spProductMap (B : SearchBackend) (rawQuery : Str) (limit : Int) : List (Nat × PSProduct) :=
  (spFetched B rawQuery limit).foldl (fun m p => mapSet m p.id p) []

def spOrdered (B : SearchBackend) (rawQuery : Str) (limit : Int) : List PSProduct :=
  (spSortedIds B rawQuery limit).filterMap (fun id => mapGet (spProductMap B rawQuery limit) id)

/-- JS `String.prototype.includes`: the needle occurs contiguously in the hay. -/
def strIncludes (hay needle : Str) : Bool :=
  match hay with
  | [] => needle.isEmpty
  | _ :: rest => needle.isPrefixOf hay || strIncludes rest needle

/-- The brand post-filter predicate: some brand term occurs within the first
50 characters of the lowercased product name. -/
def brandInPrimary (brandTerms : List Str) (p : PSProduct) : Bool :=
  brandTerms.any (fun brand => strIncludes ((toLowerStr (extractProductName p.name)).take 50) brand)

def spFiltered (B : SearchBackend) (rawQuery : Str) (limit : Int) : List PSProduct :=
  (spOrdered B rawQuery limit).filter (brandInPrimary (spBrandTerms rawQuery))

/-- Failure messages of `searchProducts`, by identity (their English text is
irrelevant to the claims; constructors carry the data interpolated into the
message). -/
inductive FailMsg
  | emptyQuery
  | noSearchableTerms
  | noneFound (searchedTerms : List Str)
  | noneFetched
  | brandMismatch (brandTerms : List Str)
deriving DecidableEq, Repr

/-- Voice-facing product entry (the formatted price and product URL carry no
information any claim touches and are omitted). -/
structure OutProduct where
  id : Nat
  name : Str
deriving DecidableEq, Repr

inductive SPOut
  | ok (products : List OutProduct)
  | fail (msg : FailMsg)
deriving DecidableEq, Repr

/-- Upstream interactions, recorded in order. -/
inductive UpCall
  | direct (q : Str)
  | search (q : Str)
  | details (ids : List Nat)
deriving DecidableEq, Repr

/-- Response shaping: short names for a list, the full speech-friendly name
for a single product. -/
def finalizeProducts (ps : List PSProduct) : SPOut :=
  let isList := ps.length > 1
  .ok (ps.map (fun p =>
    let fullName := extractProductName p.name
    { id := p.id,
      name := if isList then shortenForListing fullName else makeSpeechFriendly fullName }))

/-- The text-search pipeline of `searchProducts` after the numeric fast path. -/
def searchMain (B : SearchBackend) (rawQuery : Str) (limit : Int) (trace0 : List UpCall) :
    SPOut × List UpCall :=
  if (normalizeSearchQuery rawQuery).variations.isEmpty then (.fail .noSearchableTerms, trace0)
  else
    let trace1 := trace0 ++ (spSearchTrace B rawQuery).map UpCall.search
    if (spScores B rawQuery).length = 0 then
      (.fail (.noneFound ((normalizeSearchQuery rawQuery).terms.take 3)), trace1)
    else
      let trace2 := trace1 ++ [UpCall.details (spSortedIds B rawQuery limit)]
      if (spFetched B rawQuery limit).isEmpty then (.fail .noneFetched, trace2)
      else if spHasBrand rawQuery then
        if (spFiltered B rawQuery limit).isEmpty then
          (.fail (.brandMismatch (spBrandTerms rawQuery)), trace2)
        else (finalizeProducts (jsSliceEnd limit (spFiltered B rawQuery limit)), trace2)
      else (finalizeProducts (spOrdered B rawQuery limit), trace2)

/-- Embedding of `searchProducts` over a fixed upstream behaviour, returning
the result together with the trace of upstream interactions. -/
def searchProducts (B : SearchBackend) (query : Str) (limitArg : Option Int) :
    SPOut × List UpCall :=
  let limit := spLimit limitArg
  let rawQuery := trimJs query
  if rawQuery.isEmpty then (.fail .emptyQuery, [])
  else if isNumericStr rawQuery then
    match B.direct rawQuery with
    | some p =>
      (.ok [{ id := p.id, name := makeSpeechFriendly (extractProductName p.name) }],
       [.direct rawQuery])
    | none => searchMain B rawQuery limit [.direct rawQuery]
  else searchMain B rawQuery limit []

-- ## Basic lemmas about the helper structures

theorem mem_dedupFirstGo {α : Type} [DecidableEq α] :
    ∀ (fuel : Nat) (l : List α) (x : α), x ∈ dedupFirstGo fuel l → x ∈ l := by
  intro fuel
  induction fuel with
  | zero => intro l x hx; cases l with
    | nil => simpa [dedupFirstGo] using hx
    | cons a rest => simpa [dedupFirstGo] using hx
  | succ fuel ih =>
    intro l x hx
    cases l with
    | nil => simpa [dedupFirstGo] using hx
    | cons a rest =>
      simp only [dedupFirstGo, List.mem_cons] at hx
      rcases hx with h | h
      · exact h ▸ List.mem_cons_self _ _
      · exact List.mem_cons_of_mem _ (List.mem_of_mem_filter (ih _ _ h))

theorem dedupFirstGo_nodup {α : Type} [DecidableEq α] :
    ∀ (fuel : Nat) (l : List α), l.length ≤ fuel → (dedupFirstGo fuel l).Nodup := by
  intro fuel
  induction fuel with
  | zero =>
    intro l hl
    cases l with
    | nil => simp [dedupFirstGo]
    | cons a rest => simp at hl
  | succ fuel ih =>
    intro l hl
    cases l with
    | nil => simp [dedupFirstGo]
    | cons a rest =>
      simp only [dedupFirstGo, List.nodup_cons]
      constructor
      · intro hmem
        have := mem_dedupFirstGo _ _ _ hmem
        simp at this
      · refine ih _ (le_trans (List.length_filter_le _ _) ?_)
        simpa using hl

theorem dedupFirst_nodup {α : Type} [DecidableEq α] (l : List α) : (dedupFirst l).Nodup :=
  dedupFirstGo_nodup _ _ le_rfl

theorem dedupFirst_cons_ne_nil {α : Type} [DecidableEq α] (a : α) (rest : List α) :
    dedupFirst (a :: rest) ≠ [] := by
  simp [dedupFirst, dedupFirstGo]

-- ## C4: normalizer invariants

theorem nq_terms_eq (q : Str) :
    (normalizeSearchQuery q).terms =
      (jsSplitOn jsSpace
        (trimJs (collapseWs (specialsToSpace (removeQuotes (toLowerStr (trimJs q))))))).filter
        (fun term =>
          if term.length < 2 then false
          else if SEARCH_STOP_WORDS.contains term then false
          else true) := rfl

theorem nq_variations_eq_dedup (q : Str) :
    ∃ l : List Str, (normalizeSearchQuery q).variations = dedupFirst l :=
  ⟨_, rfl⟩

/-- C4: for every input string, `normalizeSearchQuery` returns variations
without duplicates and terms that are all at least 2 characters long and
outside the stop-word set, which contains the eight listed domain words. -/
theorem C4_normalize_invariants (q : Str) :
    (normalizeSearchQuery q).variations.Nodup ∧
    (∀ t ∈ (normalizeSearchQuery q).terms, 2 ≤ t.length ∧ t ∉ SEARCH_STOP_WORDS) ∧
    (∀ w ∈ ["series", "line", "model", "type", "kind", "version", "gen", "generation"].map strL,
      w ∈ SEARCH_STOP_WORDS) := by
  refine ⟨?_, ?_, by decide⟩
  · obtain ⟨l, hl⟩ := nq_variations_eq_dedup q
    rw [hl]; exact dedupFirst_nodup l
  · intro t ht
    rw [nq_terms_eq] at ht
    have h := List.of_mem_filter ht
    by_cases h1 : t.length < 2
    · simp [h1] at h
    · by_cases h2 : SEARCH_STOP_WORDS.contains t
      · simp [h1, h2] at h
        exact absurd (by simpa using h2) h
      · exact ⟨by omega, fun hmem => h2 (by simp [hmem])⟩

/-- Witness: a concrete query whose terms satisfy the invariant. -/
theorem C4_normalize_invariants_witness :
    (strL "asus" ∈ (normalizeSearchQuery (strL "asus pc")).terms) ∧
    (2 ≤ (strL "asus").length ∧ strL "asus" ∉ SEARCH_STOP_WORDS) :=
  ⟨by decide, (C4_normalize_invariants (strL "asus pc")).2.1 (strL "asus") (by decide)⟩

-- ## C5: case sensitivity of the speech-friendly substitutions

/-- C5 counterexample: the G-model and acronym substitutions are
case-sensitive, so a lowercase occurrence is not rewritten at all while the
canonical uppercase form is. -/
theorem C5_counterexample :
    makeSpeechFriendly (strL "ssd") = strL "ssd" ∧
    makeSpeechFriendly (strL "SSD") = strL "S S D" ∧
    makeSpeechFriendly (strL "g8") = strL "g8" ∧
    makeSpeechFriendly (strL "G8") = strL "G 8" ∧
    makeSpeechFriendly (strL "hdmi") = strL "hdmi" ∧
    makeSpeechFriendly (strL "HDMI") = strL "H D M I" := by decide

/-- C5 amended: the unit, DDR and processor substitutions (whose regexes
carry the `i` flag) match their token case-insensitively, while the G-model
substitution and the acronym substitutions (SSD, HDD, LCD, LED, USB, HDMI,
whose regexes lack the `i` flag) rewrite only the uppercase form and leave
other casings unchanged. -/
theorem C5_amended_case_sensitivity :
    (makeSpeechFriendly (strL "16GB") = strL "16 gigabytes" ∧
     makeSpeechFriendly (strL "16gb") = strL "16 gigabytes" ∧
     makeSpeechFriendly (strL "16Gb") = strL "16 gigabytes" ∧
     makeSpeechFriendly (strL "2TB") = strL "2 terabytes" ∧
     makeSpeechFriendly (strL "2tb") = strL "2 terabytes" ∧
     makeSpeechFriendly (strL "512MB") = strL "512 megabytes" ∧
     makeSpeechFriendly (strL "512mb") = strL "512 megabytes" ∧
     makeSpeechFriendly (strL "DDR4") = strL "D D R 4" ∧
     makeSpeechFriendly (strL "ddr4") = strL "D D R 4" ∧
     makeSpeechFriendly (strL "i5-1145G7") = strL "i5 1145 G 7" ∧
     makeSpeechFriendly (strL "I5-1145g7") = strL "i5 1145 G 7" ∧
     makeSpeechFriendly (strL "i7-12700") = strL "i7 12700" ∧
     makeSpeechFriendly (strL "I7-12700") = strL "i7 12700") ∧
    (makeSpeechFriendly (strL "Ssd") = strL "Ssd" ∧
     makeSpeechFriendly (strL "HDD") = strL "H D D" ∧
     makeSpeechFriendly (strL "hdd") = strL "hdd" ∧
     makeSpeechFriendly (strL "LCD") = strL "L C D" ∧
     makeSpeechFriendly (strL "lcd") = strL "lcd" ∧
     makeSpeechFriendly (strL "LED") = strL "L E D" ∧
     makeSpeechFriendly (strL "led") = strL "led" ∧
     makeSpeechFriendly (strL "USB") = strL "U S B" ∧
     makeSpeechFriendly (strL "usb") = strL "usb") := by decide

-- ## Lemmas about jsSplitOn and joinSpace (for C6)

theorem jsSplitOn_sep_sep (p : Char → Bool) (c c2 : Char) (tl : Str)
    (hc : p c = true) (h2 : p c2 = true) :
    jsSplitOn p (c :: c2 :: tl) = jsSplitOn p (c2 :: tl) := by
  simp [jsSplitOn, hc, h2]

theorem jsSplitOn_sep_cons (p : Char → Bool) (c c2 : Char) (tl : Str)
    (hc : p c = true) (h2 : p c2 = false) :
    jsSplitOn p (c :: c2 :: tl) = [] :: jsSplitOn p (c2 :: tl) := by
  simp [jsSplitOn, hc, h2]

theorem jsSplitOn_sep_nil (p : Char → Bool) (c : Char) (hc : p c = true) :
    jsSplitOn p [c] = [[], []] := by
  simp [jsSplitOn, hc]

theorem jsSplitOn_nonsep (p : Char → Bool) (c : Char) (rest : Str) (hc : p c = false) :
    jsSplitOn p (c :: rest) =
      (c :: (jsSplitOn p rest).headD []) :: (jsSplitOn p rest).tail := by
  simp [jsSplitOn, hc]

theorem jsSplitOn_ne_nil (p : Char → Bool) (s : Str) : jsSplitOn p s ≠ [] := by
  induction s with
  | nil => simp [jsSplitOn]
  | cons c rest ih =>
    by_cases hc : p c
    · cases rest with
      | nil => rw [jsSplitOn_sep_nil p c hc]; simp
      | cons c2 tl =>
        by_cases h2 : p c2
        · rw [jsSplitOn_sep_sep p c c2 tl hc h2]; exact ih
        · rw [jsSplitOn_sep_cons p c c2 tl hc (by simpa using h2)]; simp
    · rw [jsSplitOn_nonsep p c rest (by simpa using hc)]; simp

theorem headD_cons_tail {α : Type} (l : List α) (d : α) (h : l ≠ []) :
    l.headD d :: l.tail = l := by
  cases l with
  | nil => exact absurd rfl h
  | cons a t => rfl

theorem mem_jsSplitOn_no_sep (p : Char → Bool) :
    ∀ (s : Str) (w : Str), w ∈ jsSplitOn p s → ∀ c ∈ w, p c = false := by
  intro s
  induction s with
  | nil =>
    intro w hw c hc
    simp [jsSplitOn] at hw
    subst hw
    simp at hc
  | cons a rest ih =>
    intro w hw c hc
    by_cases ha : p a
    · cases rest with
      | nil =>
        rw [jsSplitOn_sep_nil p a ha] at hw
        simp at hw
        subst hw
        simp at hc
      | cons c2 tl =>
        by_cases h2 : p c2
        · rw [jsSplitOn_sep_sep p a c2 tl ha h2] at hw
          exact ih _ hw c hc
        · rw [jsSplitOn_sep_cons p a c2 tl ha (by simpa using h2)] at hw
          rcases List.mem_cons.mp hw with h | h
          · subst h; simp at hc
          · exact ih _ h c hc
    · rw [jsSplitOn_nonsep p a rest (by simpa using ha)] at hw
      rcases List.mem_cons.mp hw with h | h
      · subst h
        rcases List.mem_cons.mp hc with h | h
        · subst h; simpa using ha
        · cases hr : jsSplitOn p rest with
          | nil => rw [hr] at h; simp at h
          | cons t ts =>
            rw [hr] at h
            exact ih t (by rw [hr]; exact List.mem_cons_self _ _) c (by simpa using h)
      · exact ih _ (List.mem_of_mem_tail h) c hc

theorem jsSplitOn_all_nonsep (p : Char → Bool) :
    ∀ s : Str, (∀ c ∈ s, p c = false) → jsSplitOn p s = [s] := by
  intro s
  induction s with
  | nil => intro _; rfl
  | cons c rest ih =>
    intro h
    have hc : p c = false := h c (List.mem_cons_self _ _)
    have hr : jsSplitOn p rest = [rest] := ih (fun x hx => h x (List.mem_cons_of_mem _ hx))
    rw [jsSplitOn_nonsep p c rest hc, hr]
    rfl

theorem jsSplitOn_prepend (p : Char → Bool) :
    ∀ (a s0 : Str), (∀ c ∈ a, p c = false) →
      jsSplitOn p (a ++ s0) =
        (a ++ (jsSplitOn p s0).headD []) :: (jsSplitOn p s0).tail := by
  intro a
  induction a with
  | nil =>
    intro s0 _
    simpa using (headD_cons_tail (jsSplitOn p s0) [] (jsSplitOn_ne_nil p s0)).symm
  | cons c a' ih =>
    intro s0 h
    have hc : p c = false := h c (List.mem_cons_self _ _)
    have hrec := ih s0 (fun x hx => h x (List.mem_cons_of_mem _ hx))
    rw [List.cons_append, jsSplitOn_nonsep p c (a' ++ s0) hc, hrec]
    simp

theorem countWsTokens_joinSpace :
    ∀ ws : List Str, (∀ w ∈ ws, w ≠ [] ∧ ∀ c ∈ w, jsSpace c = false) →
      countWsTokens (joinSpace ws) = ws.length := by
  intro ws
  induction ws with
  | nil => intro _; rfl
  | cons w rest ih =>
    intro h
    have hw := h w (List.mem_cons_self _ _)
    cases rest with
    | nil =>
      show countWsTokens (joinSpace [w]) = 1
      have hjs : joinSpace [w] = w := rfl
      rw [hjs]
      unfold countWsTokens
      rw [jsSplitOn_all_nonsep jsSpace w hw.2]
      simp [List.length_pos.mpr hw.1]
    | cons w2 rest2 =>
      have hw2 := h w2 (List.mem_cons_of_mem _ (List.mem_cons_self _ _))
      obtain ⟨d, w2', hd⟩ : ∃ d w2', w2 = d :: w2' := by
        cases w2 with
        | nil => exact absurd rfl hw2.1
        | cons d t => exact ⟨d, t, rfl⟩
      have hdns : jsSpace d = false := hw2.2 d (by rw [hd]; exact List.mem_cons_self _ _)
      obtain ⟨T', hT⟩ : ∃ T', joinSpace (w2 :: rest2) = d :: T' := by
        cases rest2 with
        | nil => exact ⟨w2', by simp [joinSpace, hd]⟩
        | cons a b => exact ⟨w2' ++ ' ' :: joinSpace (a :: b), by simp [joinSpace, hd]⟩
      have hjoin : joinSpace (w :: w2 :: rest2) = w ++ ' ' :: joinSpace (w2 :: rest2) := rfl
      have hrec := ih (fun x hx => h x (List.mem_cons_of_mem _ hx))
      unfold countWsTokens at hrec ⊢
      rw [hjoin, hT]
      rw [hT] at hrec
      rw [jsSplitOn_prepend jsSpace w (' ' :: d :: T') hw.2,
          jsSplitOn_sep_cons jsSpace ' ' d T' (by decide) hdns]
      simp only [List.headD_cons, List.tail_cons, List.append_nil]
      rw [List.filter_cons_of_pos (by simpa using List.length_pos.mpr hw.1)]
      simp only [List.length_cons]
      rw [hrec]
      simp

theorem takeWhileLen_eq_findIdx {α : Type} (q : α → Bool) :
    ∀ l : List α,
      (l.takeWhile (fun x => !q x)).length =
        (match l.findIdx? q with
         | some i => i
         | none => l.length) := by
  intro l
  induction l with
  | nil => simp
  | cons a l ih =>
    by_cases hq : q a
    · simp [List.takeWhile_cons, hq, List.findIdx?_cons]
    · have h1 : (List.takeWhile (fun x => !q x) (a :: l)).length =
          (List.takeWhile (fun x => !q x) l).length + 1 := by
        simp [List.takeWhile_cons, hq]
      have h2 : List.findIdx? q (a :: l) = (List.findIdx? q l).map (· + 1) := by
        simp [List.findIdx?_cons, hq]
      rw [h1, h2]
      cases hfi : List.findIdx? q l with
      | some i =>
        rw [hfi] at ih
        simpa using ih
      | none =>
        rw [hfi] at ih
        simpa using ih

-- ## C6: listing truncation bounds

/-- C6 counterexample: on the empty name, `shortenForListing` returns the
empty string, which has zero whitespace-delimited tokens, outside the
claimed 1 to 5 range. -/
theorem C6_counterexample :
    countWsTokens (shortenForListing (strL "")) = 0 := by decide

theorem joinTake_count (words : List Str) (n : Nat)
    (hwords : ∀ w ∈ words, w ≠ [] ∧ ∀ c ∈ w, jsSpace c = false) :
    countWsTokens (joinSpace (words.take n)) = min n words.length := by
  rw [countWsTokens_joinSpace _ (fun w hw => hwords w (List.mem_of_mem_take hw)),
    List.length_take]

theorem shortenWords_ok (name : Str) :
    ∀ w ∈ (jsSplitOn listingSep name).filter (fun w => w.length > 0),
      w ≠ [] ∧ ∀ c ∈ w, jsSpace c = false := by
  intro w hw
  refine ⟨?_, ?_⟩
  · have hpos := List.of_mem_filter hw
    intro hnil
    subst hnil
    simp at hpos
  · intro c hc
    have hns := mem_jsSplitOn_no_sep listingSep name w (List.mem_of_mem_filter hw) c hc
    simp only [listingSep, Bool.or_eq_false_iff] at hns
    exact hns.1.1.1

/-- C6 amended: whenever the name splits into at least one token,
`shortenForListing` returns between 1 and 5 whitespace-delimited tokens, at
least 3 of them whenever at least 3 tokens precede the first spec-like
token; an empty or separator-only name returns the empty string (zero
tokens) instead. -/
theorem C6_amended_bounds (name : Str)
    (hne : (jsSplitOn listingSep name).filter (fun w => w.length > 0) ≠ []) :
    1 ≤ countWsTokens (shortenForListing name) ∧
    countWsTokens (shortenForListing name) ≤ 5 ∧
    (3 ≤ (((jsSplitOn listingSep name).filter (fun w => w.length > 0)).takeWhile
        (fun w => !specTokenTest w)).length →
      3 ≤ countWsTokens (shortenForListing name)) := by
  have hsl : shortenForListing name =
      joinSpace (((jsSplitOn listingSep name).filter (fun w => w.length > 0)).take
        (min (match ((jsSplitOn listingSep name).filter
                (fun w => w.length > 0)).findIdx? specTokenTest with
              | some i => max 3 i
              | none => ((jsSplitOn listingSep name).filter (fun w => w.length > 0)).length)
          5)) := rfl
  have hcnt := joinTake_count _
    (min (match ((jsSplitOn listingSep name).filter
            (fun w => w.length > 0)).findIdx? specTokenTest with
          | some i => max 3 i
          | none => ((jsSplitOn listingSep name).filter (fun w => w.length > 0)).length)
      5)
    (shortenWords_ok name)
  rw [hsl, hcnt]
  have hlen1 : 1 ≤ ((jsSplitOn listingSep name).filter (fun w => w.length > 0)).length :=
    List.length_pos.mpr hne
  have htw := takeWhileLen_eq_findIdx specTokenTest
    ((jsSplitOn listingSep name).filter (fun w => w.length > 0))
  have hle : (((jsSplitOn listingSep name).filter (fun w => w.length > 0)).takeWhile
      (fun w => !specTokenTest w)).length ≤
      ((jsSplitOn listingSep name).filter (fun w => w.length > 0)).length :=
    (List.takeWhile_sublist _).length_le
  cases hfi : ((jsSplitOn listingSep name).filter
      (fun w => w.length > 0)).findIdx? specTokenTest with
  | some i =>
    rw [hfi] at htw
    simp only [] at htw ⊢
    refine ⟨by omega, by omega, ?_⟩
    intro h3
    rw [htw] at h3 hle
    omega
  | none =>
    rw [hfi] at htw
    simp only [] at htw ⊢
    refine ⟨by omega, by omega, ?_⟩
    intro h3
    rw [htw] at h3
    omega

/-- Witness for the amended C6 at a concrete product name. -/
theorem C6_amended_bounds_witness :
    ((jsSplitOn listingSep (strL "Apple iPhone 14 Pro")).filter (fun w => w.length > 0) ≠ []) ∧
    (1 ≤ countWsTokens (shortenForListing (strL "Apple iPhone 14 Pro")) ∧
     countWsTokens (shortenForListing (strL "Apple iPhone 14 Pro")) ≤ 5 ∧
     (3 ≤ (((jsSplitOn listingSep (strL "Apple iPhone 14 Pro")).filter
          (fun w => w.length > 0)).takeWhile (fun w => !specTokenTest w)).length →
       3 ≤ countWsTokens (shortenForListing (strL "Apple iPhone 14 Pro")))) :=
  ⟨by decide, C6_amended_bounds (strL "Apple iPhone 14 Pro") (by decide)⟩

-- ## Association-map lemmas (for C7, C3, C10, C1, C2)

theorem mapGet_mapSet {κ α : Type} [DecidableEq κ] :
    ∀ (m : List (κ × α)) (k k' : κ) (v : α),
      mapGet (mapSet m k v) k' = if k = k' then some v else mapGet m k' := by
  intro m
  induction m with
  | nil => intro k k' v; simp [mapSet, mapGet]
  | cons p rest ih =>
    intro k k' v
    by_cases hpk : p.1 = k
    · have hset : mapSet (p :: rest) k v = (k, v) :: rest := by simp [mapSet, hpk]
      rw [hset]
      by_cases hkk : k = k'
      · simp [mapGet, hkk]
      · have hp' : ¬ p.1 = k' := fun h => hkk (hpk.symm.trans h)
        simp [mapGet, hkk, hp']
    · have hset : mapSet (p :: rest) k v = p :: mapSet rest k v := by simp [mapSet, hpk]
      rw [hset]
      by_cases hpk' : p.1 = k'
      · have hkk : ¬ k = k' := fun h => hpk (hpk'.trans h.symm)
        simp [mapGet, hpk', hkk]
      · simp [mapGet, hpk', ih]

theorem mapGet_eq_none_of_not_mem {κ α : Type} [DecidableEq κ] :
    ∀ (m : List (κ × α)) (k : κ), k ∉ mapKeys m → mapGet m k = none := by
  intro m
  induction m with
  | nil => intro k _; rfl
  | cons p rest ih =>
    intro k hk
    simp only [mapKeys, List.map_cons, List.mem_cons] at hk
    push_neg at hk
    have h1 : ¬ p.1 = k := fun h => hk.1 h.symm
    simp only [mapGet, if_neg h1]
    exact ih k (by simpa [mapKeys] using hk.2)

theorem length_mapSet_le {κ α : Type} [DecidableEq κ] :
    ∀ (m : List (κ × α)) (k : κ) (v : α), (mapSet m k v).length ≤ m.length + 1 := by
  intro m
  induction m with
  | nil => intro k v; simp [mapSet]
  | cons p rest ih =>
    intro k v
    by_cases hpk : p.1 = k
    · simp [mapSet, hpk]
    · simp only [mapSet, if_neg hpk, List.length_cons]
      exact Nat.succ_le_succ (ih k v)

theorem mapDelete_cons_self {κ α : Type} [DecidableEq κ] (p : κ × α) (rest : List (κ × α))
    (hnd : p.1 ∉ mapKeys rest) : mapDelete (p :: rest) p.1 = rest := by
  unfold mapDelete
  rw [List.filter_cons_of_neg (by simp)]
  apply List.filter_eq_self.mpr
  intro q hq
  simp only [ne_eq, decide_eq_true_eq]
  intro h
  exact hnd (h ▸ List.mem_map_of_mem Prod.fst hq)

theorem cachePut_length {κ α : Type} [DecidableEq κ] (maxSize : Nat) (hmax : 1 ≤ maxSize)
    (m : List (κ × α)) (k : κ) (v : α) (hm : m.length ≤ maxSize) :
    (cachePut maxSize m k v).length ≤ maxSize := by
  unfold cachePut
  by_cases hge : m.length ≥ maxSize
  · rw [if_pos hge]
    cases m with
    | nil => simp at hge; omega
    | cons p rest =>
      simp only [List.head?_cons]
      have bound : (mapDelete (p :: rest) p.1).length ≤ rest.length := by
        unfold mapDelete
        rw [List.filter_cons_of_neg (by simp)]
        exact List.length_filter_le _ _
      calc (mapSet (mapDelete (p :: rest) p.1) k v).length
          ≤ (mapDelete (p :: rest) p.1).length + 1 := length_mapSet_le _ _ _
        _ ≤ rest.length + 1 := by omega
        _ = (p :: rest).length := rfl
        _ ≤ maxSize := hm
  · rw [if_neg hge]
    calc (mapSet m k v).length ≤ m.length + 1 := length_mapSet_le _ _ _
      _ ≤ maxSize := by omega

theorem cacheRun_length {κ α : Type} [DecidableEq κ] (maxSize : Nat) (hmax : 1 ≤ maxSize) :
    ∀ (ops : List (κ × α)) (m : List (κ × α)), m.length ≤ maxSize →
      (ops.foldl (fun m p => cachePut maxSize m p.1 p.2) m).length ≤ maxSize := by
  intro ops
  induction ops with
  | nil => intro m hm; exact hm
  | cons op rest ih =>
    intro m hm
    exact ih _ (cachePut_length maxSize hmax m op.1 op.2 hm)

theorem cachePut_evicts {κ α : Type} [DecidableEq κ] (maxSize : Nat) (k0 : κ) (v0 : α)
    (rest : List (κ × α)) (k : κ) (v : α)
    (hnd : (mapKeys ((k0, v0) :: rest)).Nodup)
    (hfull : ((k0, v0) :: rest).length ≥ maxSize)
    (hk : k ≠ k0) :
    mapGet (cachePut maxSize ((k0, v0) :: rest) k v) k0 = none ∧
    mapGet (cachePut maxSize ((k0, v0) :: rest) k v) k = some v ∧
    (∀ k', k' ≠ k0 → k' ≠ k →
      mapGet (cachePut maxSize ((k0, v0) :: rest) k v) k' = mapGet ((k0, v0) :: rest) k') := by
  have hk0rest : k0 ∉ mapKeys rest := by
    simp only [mapKeys, List.map_cons, List.nodup_cons] at hnd
    exact hnd.1
  have hdel : cachePut maxSize ((k0, v0) :: rest) k v = mapSet rest k v := by
    unfold cachePut
    rw [if_pos hfull]
    simp only [List.head?_cons]
    rw [mapDelete_cons_self (k0, v0) rest hk0rest]
  rw [hdel]
  refine ⟨?_, ?_, ?_⟩
  · rw [mapGet_mapSet, if_neg hk]
    exact mapGet_eq_none_of_not_mem rest k0 hk0rest
  · rw [mapGet_mapSet, if_pos rfl]
  · intro k' h0 hkk
    rw [mapGet_mapSet, if_neg (fun h => hkk h.symm), mapGet, if_neg (fun h => h0 h.symm)]

-- ## C7: cache capacity bound and FIFO eviction

/-- C7: for every sequence of insertions, the product cache never exceeds
100 entries and the search cache never exceeds 50; an insertion of a new key
at the bound evicts exactly the earliest-inserted entry, keeps every other
entry unchanged, and stores the new one. -/
theorem C7_cache_bound_fifo :
    (∀ ops : List (Nat × ProductCacheEntry),
      (ops.foldl (fun m p => productCacheInsert m p.1 p.2) []).length ≤ PRODUCT_CACHE_MAX) ∧
    (∀ ops : List (Str × SearchCacheEntry),
      (ops.foldl (fun m p => searchCacheInsert m p.1 p.2) []).length ≤ SEARCH_CACHE_MAX) ∧
    (∀ (k0 : Nat) (v0 : ProductCacheEntry) (rest : List (Nat × ProductCacheEntry))
       (k : Nat) (v : ProductCacheEntry),
      (mapKeys ((k0, v0) :: rest)).Nodup →
      ((k0, v0) :: rest).length = PRODUCT_CACHE_MAX →
      k ≠ k0 →
      mapGet (productCacheInsert ((k0, v0) :: rest) k v) k0 = none ∧
      mapGet (productCacheInsert ((k0, v0) :: rest) k v) k = some v ∧
      (∀ k', k' ≠ k0 → k' ≠ k →
        mapGet (productCacheInsert ((k0, v0) :: rest) k v) k' =
          mapGet ((k0, v0) :: rest) k')) ∧
    (∀ (k0 : Str) (v0 : SearchCacheEntry) (rest : List (Str × SearchCacheEntry))
       (k : Str) (v : SearchCacheEntry),
      (mapKeys ((k0, v0) :: rest)).Nodup →
      ((k0, v0) :: rest).length = SEARCH_CACHE_MAX →
      k ≠ k0 →
      mapGet (searchCacheInsert ((k0, v0) :: rest) k v) k0 = none ∧
      mapGet (searchCacheInsert ((k0, v0) :: rest) k v) k = some v ∧
      (∀ k', k' ≠ k0 → k' ≠ k →
        mapGet (searchCacheInsert ((k0, v0) :: rest) k v) k' =
          mapGet ((k0, v0) :: rest) k')) := by
  refine ⟨?_, ?_, ?_, ?_⟩
  · intro ops
    exact cacheRun_length PRODUCT_CACHE_MAX (by decide) ops [] (by simp)
  · intro ops
    exact cacheRun_length SEARCH_CACHE_MAX (by decide) ops [] (by simp)
  · intro k0 v0 rest k v hnd hfull hk
    exact cachePut_evicts PRODUCT_CACHE_MAX k0 v0 rest k v hnd (le_of_eq hfull.symm) hk
  · intro k0 v0 rest k v hnd hfull hk
    exact cachePut_evicts SEARCH_CACHE_MAX k0 v0 rest k v hnd (le_of_eq hfull.symm) hk

def pcEntry : ProductCacheEntry := { name := [], price := [], time := 0 }

def pcRest : List (Nat × ProductCacheEntry) :=
  (List.range 99).map (fun i => (i + 2, pcEntry))

def scEntry : SearchCacheEntry := { ids := [], time := 0 }

def scKey (i : Nat) : Str := List.replicate i 'a'

def scRest : List (Str × SearchCacheEntry) :=
  (List.range 49).map (fun i => (scKey (i + 2), scEntry))

/-- Witness: concrete full caches where inserting a fresh key evicts the
oldest entry. -/
theorem C7_cache_bound_fifo_witness :
    ((mapKeys ((1, pcEntry) :: pcRest)).Nodup ∧
     ((1, pcEntry) :: pcRest).length = PRODUCT_CACHE_MAX ∧
     (0 : Nat) ≠ 1 ∧
     (mapKeys ((scKey 1, scEntry) :: scRest)).Nodup ∧
     ((scKey 1, scEntry) :: scRest).length = SEARCH_CACHE_MAX ∧
     scKey 0 ≠ scKey 1) ∧
    ((mapGet (productCacheInsert ((1, pcEntry) :: pcRest) 0 pcEntry) 1 = none ∧
      mapGet (productCacheInsert ((1, pcEntry) :: pcRest) 0 pcEntry) 0 = some pcEntry ∧
      (∀ k', k' ≠ 1 → k' ≠ 0 →
        mapGet (productCacheInsert ((1, pcEntry) :: pcRest) 0 pcEntry) k' =
          mapGet ((1, pcEntry) :: pcRest) k')) ∧
     (mapGet (searchCacheInsert ((scKey 1, scEntry) :: scRest) (scKey 0) scEntry) (scKey 1) = none ∧
      mapGet (searchCacheInsert ((scKey 1, scEntry) :: scRest) (scKey 0) scEntry) (scKey 0) =
        some scEntry ∧
      (∀ k', k' ≠ scKey 1 → k' ≠ scKey 0 →
        mapGet (searchCacheInsert ((scKey 1, scEntry) :: scRest) (scKey 0) scEntry) k' =
          mapGet ((scKey 1, scEntry) :: scRest) k'))) :=
  ⟨⟨by decide, by decide, by decide, by decide, by decide, by decide⟩,
   C7_cache_bound_fifo.2.2.1 1 pcEntry pcRest 0 pcEntry (by decide) (by decide) (by decide),
   C7_cache_bound_fifo.2.2.2 (scKey 1) scEntry scRest (scKey 0) scEntry
     (by decide) (by decide) (by decide)⟩

-- ## Rate limiter lemmas (C3, C10)

theorem checkRateLimit_allowed_eq (m : RLMap) (ip : Str) (now : Int) (sweep : Bool) :
    (checkRateLimit m ip now sweep).1.allowed =
      decide ((((mapGet m ip).getD []).filter
        (fun ts => now - RATE_LIMIT_WINDOW_MS < ts)).length < RATE_LIMIT_REQUESTS) := rfl

theorem checkRateLimit_state_eq (m : RLMap) (ip : Str) (now : Int) (sweep : Bool) :
    (checkRateLimit m ip now sweep).2 =
      (let ws := now - RATE_LIMIT_WINDOW_MS
       let ts1 := ((mapGet m ip).getD []).filter (fun ts => ws < ts)
       let m1 := if ts1.length < RATE_LIMIT_REQUESTS then mapSet m ip (ts1 ++ [now]) else m
       if sweep then m1.filter (fun kv => !(kv.2.all (fun t => t ≤ ws))) else m1) := by
  by_cases h : (((mapGet m ip).getD []).filter
      (fun ts => now - RATE_LIMIT_WINDOW_MS < ts)).length < RATE_LIMIT_REQUESTS
  · simp [checkRateLimit, h]
  · simp [checkRateLimit, h]

theorem rl_step_empty (ip : Str) (now : Int) (sweep : Bool) :
    (checkRateLimit [] ip now sweep).1.allowed = true ∧
    (checkRateLimit [] ip now sweep).2 = [(ip, [now])] := by
  have hnow : ¬ ((now : Int) ≤ now - RATE_LIMIT_WINDOW_MS) := by
    unfold RATE_LIMIT_WINDOW_MS; omega
  constructor
  · rw [checkRateLimit_allowed_eq]
    simp [mapGet, RATE_LIMIT_REQUESTS]
  · rw [checkRateLimit_state_eq]
    simp only [mapGet, Option.getD_none, List.filter_nil, List.length_nil, List.nil_append]
    rw [if_pos (show 0 < RATE_LIMIT_REQUESTS by decide)]
    have hset : mapSet ([] : RLMap) ip [now] = [(ip, [now])] := rfl
    rw [hset]
    cases sweep with
    | false => rfl
    | true => simp [hnow]

theorem rl_step_allowed (ip : Str) (s : List Int) (now : Int) (sweep : Bool)
    (hs : ∀ t ∈ s, now - RATE_LIMIT_WINDOW_MS < t)
    (hlen : s.length < RATE_LIMIT_REQUESTS) :
    (checkRateLimit [(ip, s)] ip now sweep).1.allowed = true ∧
    (checkRateLimit [(ip, s)] ip now sweep).2 = [(ip, s ++ [now])] := by
  have hget : (mapGet [(ip, s)] ip).getD [] = s := by simp [mapGet]
  have hfil : s.filter (fun ts => now - RATE_LIMIT_WINDOW_MS < ts) = s :=
    List.filter_eq_self.mpr (fun t ht => by simpa using hs t ht)
  have hnow : ¬ ((now : Int) ≤ now - RATE_LIMIT_WINDOW_MS) := by
    unfold RATE_LIMIT_WINDOW_MS; omega
  constructor
  · rw [checkRateLimit_allowed_eq, hget, hfil]
    simpa using hlen
  · rw [checkRateLimit_state_eq]
    simp only [hget, hfil]
    rw [if_pos hlen]
    have hset : mapSet [(ip, s)] ip (s ++ [now]) = [(ip, s ++ [now])] := by simp [mapSet]
    rw [hset]
    cases sweep with
    | false => rfl
    | true => simp [List.all_append, hnow]

theorem rl_step_rejected (ip : Str) (s : List Int) (now : Int) (sweep : Bool)
    (hs : ∀ t ∈ s, now - RATE_LIMIT_WINDOW_MS < t)
    (hlen : RATE_LIMIT_REQUESTS ≤ s.length) :
    (checkRateLimit [(ip, s)] ip now sweep).1.allowed = false ∧
    (checkRateLimit [(ip, s)] ip now sweep).2 = [(ip, s)] := by
  have hget : (mapGet [(ip, s)] ip).getD [] = s := by simp [mapGet]
  have hfil : s.filter (fun ts => now - RATE_LIMIT_WINDOW_MS < ts) = s :=
    List.filter_eq_self.mpr (fun t ht => by simpa using hs t ht)
  obtain ⟨t0, s', hcons⟩ : ∃ t0 s', s = t0 :: s' := by
    cases s with
    | nil => unfold RATE_LIMIT_REQUESTS at hlen; simp at hlen
    | cons a b => exact ⟨a, b, rfl⟩
  constructor
  · rw [checkRateLimit_allowed_eq, hget, hfil]
    simpa using hlen
  · rw [checkRateLimit_state_eq]
    simp only [hget, hfil]
    rw [if_neg (show ¬ s.length < RATE_LIMIT_REQUESTS by omega)]
    cases sweep with
    | false => rfl
    | true =>
      have ht0 : ¬ (t0 ≤ now - RATE_LIMIT_WINDOW_MS) := by
        have := hs t0 (by rw [hcons]; exact List.mem_cons_self _ _)
        omega
      rw [hcons]
      simp [ht0]

theorem rlRunGo_cons (ip : Str) (m : RLMap) (c : Int × Bool) (rest : List (Int × Bool)) :
    rlRunGo ip m (c :: rest) =
      (checkRateLimit m ip c.1 c.2).1.allowed ::
        rlRunGo ip (checkRateLimit m ip c.1 c.2).2 rest := rfl

theorem rlRunGo_spec (ip : Str) :
    ∀ (calls : List (Int × Bool)) (s : List Int),
      (∀ c ∈ calls, ∀ t ∈ s, c.1 - RATE_LIMIT_WINDOW_MS < t) →
      (∀ c ∈ calls, ∀ c' ∈ calls, c.1 - RATE_LIMIT_WINDOW_MS < c'.1) →
      rlRunGo ip [(ip, s)] calls =
        (List.range calls.length).map
          (fun i => decide (s.length + i < RATE_LIMIT_REQUESTS)) := by
  intro calls
  induction calls with
  | nil => intro s _ _; rfl
  | cons c rest ih =>
    intro s h1 h2
    have hcs : ∀ t ∈ s, c.1 - RATE_LIMIT_WINDOW_MS < t :=
      h1 c (List.mem_cons_self _ _)
    have h1' : ∀ c' ∈ rest, ∀ t ∈ s ++ [c.1], c'.1 - RATE_LIMIT_WINDOW_MS < t := by
      intro c' hc' t ht
      rcases List.mem_append.mp ht with ht | ht
      · exact h1 c' (List.mem_cons_of_mem _ hc') t ht
      · have heq : t = c.1 := by simpa using ht
        subst heq
        exact h2 c' (List.mem_cons_of_mem _ hc') c (List.mem_cons_self _ _)
    have h2' : ∀ c' ∈ rest, ∀ c'' ∈ rest, c'.1 - RATE_LIMIT_WINDOW_MS < c''.1 :=
      fun c' hc' c'' hc'' =>
        h2 c' (List.mem_cons_of_mem _ hc') c'' (List.mem_cons_of_mem _ hc'')
    rw [rlRunGo_cons]
    simp only [List.length_cons]
    rw [List.range_succ_eq_map, List.map_cons, List.map_map]
    by_cases hlen : s.length < RATE_LIMIT_REQUESTS
    · have hstep := rl_step_allowed ip s c.1 c.2 hcs hlen
      rw [hstep.1, hstep.2, ih (s ++ [c.1]) h1' h2']
      congr 1
      · simp [hlen]
      · apply List.map_congr_left
        intro i _
        apply decide_eq_decide.mpr
        simp only [List.length_append, List.length_singleton]
        omega
    · have hstep := rl_step_rejected ip s c.1 c.2 hcs (by omega)
      rw [hstep.1, hstep.2, ih s (fun c' hc' => h1 c' (List.mem_cons_of_mem _ hc')) h2']
      congr 1
      · simp [hlen]
      · apply List.map_congr_left
        intro i _
        apply decide_eq_decide.mpr
        omega

-- ## C3: sliding-window rate limiter boundary behaviour

/-- C3: starting from an empty state, a sequence of calls whose timestamps
all lie in one window of length `RATE_LIMIT_WINDOW_MS` is admitted exactly
on its first `RATE_LIMIT_REQUESTS` calls and rejected afterwards (whatever
the sweep coin flips); on every call the decision is taken on the stored
timestamps with the expired ones dropped; and once every stored timestamp
is at least a full window old, the next call is admitted again. -/
theorem C3_sliding_window (ip : Str) (calls : List (Int × Bool)) (t0 : Int)
    (hwin : ∀ c ∈ calls, t0 ≤ c.1 ∧ c.1 < t0 + RATE_LIMIT_WINDOW_MS) :
    (rlRun ip calls =
      (List.range calls.length).map (fun i => decide (i < RATE_LIMIT_REQUESTS))) ∧
    (∀ (m : RLMap) (now : Int) (sweep : Bool),
      (checkRateLimit m ip now sweep).1.allowed =
        decide ((((mapGet m ip).getD []).filter
          (fun ts => now - RATE_LIMIT_WINDOW_MS < ts)).length < RATE_LIMIT_REQUESTS)) ∧
    (∀ (m : RLMap) (now : Int) (sweep : Bool),
      (∀ t ∈ (mapGet m ip).getD [], t ≤ now - RATE_LIMIT_WINDOW_MS) →
      (checkRateLimit m ip now sweep).1.allowed = true) := by
  have hcc : ∀ c ∈ calls, ∀ c' ∈ calls, c.1 - RATE_LIMIT_WINDOW_MS < c'.1 := by
    intro c hc c' hc'
    have h1 := hwin c hc
    have h2 := hwin c' hc'
    omega
  refine ⟨?_, ?_, ?_⟩
  · cases calls with
    | nil => rfl
    | cons c rest =>
      have hstep := rl_step_empty ip c.1 c.2
      unfold rlRun
      rw [rlRunGo_cons, hstep.1, hstep.2]
      rw [rlRunGo_spec ip rest [c.1]
        (fun c' hc' t ht => by
          have heq : t = c.1 := by simpa using ht
          subst heq
          exact hcc c' (List.mem_cons_of_mem _ hc') c (List.mem_cons_self _ _))
        (fun c' hc' c'' hc'' =>
          hcc c' (List.mem_cons_of_mem _ hc') c'' (List.mem_cons_of_mem _ hc''))]
      simp only [List.length_cons]
      rw [List.range_succ_eq_map, List.map_cons, List.map_map]
      congr 1
      all_goals first
        | decide
        | (apply List.map_congr_left
           intro i _
           apply decide_eq_decide.mpr
           try simp only [List.length_cons, List.length_nil]
           omega)
  · intro m now sweep
    exact checkRateLimit_allowed_eq m ip now sweep
  · intro m now sweep hall
    rw [checkRateLimit_allowed_eq]
    have hfil : ((mapGet m ip).getD []).filter
        (fun ts => now - RATE_LIMIT_WINDOW_MS < ts) = [] := by
      apply List.filter_eq_nil_iff.mpr
      intro t ht
      have := hall t ht
      simp only [decide_eq_true_eq]
      omega
    rw [hfil]
    simp [RATE_LIMIT_REQUESTS]

/-- Witness: 101 calls at the same instant; the theorem yields that the
first 100 are admitted and the 101st rejected. -/
theorem C3_sliding_window_witness :
    (∀ c ∈ List.replicate 101 ((0 : Int), false),
       (0 : Int) ≤ c.1 ∧ c.1 < 0 + RATE_LIMIT_WINDOW_MS) ∧
    ((rlRun (strL "a") (List.replicate 101 ((0 : Int), false)) =
       (List.range (List.replicate 101 ((0 : Int), false)).length).map
         (fun i => decide (i < RATE_LIMIT_REQUESTS))) ∧
     (∀ (m : RLMap) (now : Int) (sweep : Bool),
       (checkRateLimit m (strL "a") now sweep).1.allowed =
         decide ((((mapGet m (strL "a")).getD []).filter
           (fun ts => now - RATE_LIMIT_WINDOW_MS < ts)).length < RATE_LIMIT_REQUESTS)) ∧
     (∀ (m : RLMap) (now : Int) (sweep : Bool),
       (∀ t ∈ (mapGet m (strL "a")).getD [], t ≤ now - RATE_LIMIT_WINDOW_MS) →
       (checkRateLimit m (strL "a") now sweep).1.allowed = true)) :=
  ⟨by decide, C3_sliding_window (strL "a") (List.replicate 101 ((0 : Int), false)) 0 (by decide)⟩

-- ## C10 support: map lookups through the sweep filter

theorem not_mem_keys_filter {κ α : Type} [DecidableEq κ] (q : κ × α → Bool)
    (m : List (κ × α)) (k : κ) (h : k ∉ mapKeys m) : k ∉ mapKeys (m.filter q) :=
  fun hmem => h ((List.Sublist.map Prod.fst (List.filter_sublist m)).subset hmem)

theorem mapGet_filter {κ α : Type} [DecidableEq κ] (q : κ × α → Bool) :
    ∀ (m : List (κ × α)) (k : κ), (mapKeys m).Nodup →
      mapGet (m.filter q) k =
        (match mapGet m k with
         | some v => if q (k, v) then some v else none
         | none => none) := by
  intro m
  induction m with
  | nil => intro k _; rfl
  | cons p rest ih =>
    intro k hnd
    have hnd' : (mapKeys rest).Nodup := by
      simp only [mapKeys, List.map_cons, List.nodup_cons] at hnd
      exact hnd.2
    have hp1 : p.1 ∉ mapKeys rest := by
      simp only [mapKeys, List.map_cons, List.nodup_cons] at hnd
      exact hnd.1
    by_cases hpk : p.1 = k
    · have hpair : (k, p.2) = p := by
        cases p; simp at hpk; simp [hpk]
      have hget : mapGet (p :: rest) k = some p.2 := by simp [mapGet, hpk]
      rw [hget]
      by_cases hq : q p
      · rw [List.filter_cons_of_pos hq]
        simp only [mapGet, if_pos hpk, hpair, hq, if_true]
      · rw [List.filter_cons_of_neg hq]
        have : k ∉ mapKeys (rest.filter q) :=
          not_mem_keys_filter q rest k (hpk ▸ hp1)
        rw [mapGet_eq_none_of_not_mem _ _ this]
        simp [hpair, hq]
    · have hget : mapGet (p :: rest) k = mapGet rest k := by simp [mapGet, hpk]
      rw [hget]
      by_cases hq : q p
      · rw [List.filter_cons_of_pos hq]
        simp only [mapGet, if_neg hpk]
        exact ih k hnd'
      · rw [List.filter_cons_of_neg hq]
        exact ih k hnd'

theorem mem_keys_mapSet {κ α : Type} [DecidableEq κ] :
    ∀ (m : List (κ × α)) (k v) (k' : κ),
      k' ∈ mapKeys (mapSet m k v) → k' ∈ mapKeys m ∨ k' = k := by
  intro m
  induction m with
  | nil =>
    intro k v k' h
    simp [mapSet, mapKeys] at h
    exact Or.inr h
  | cons p rest ih =>
    intro k v k' h
    by_cases hpk : p.1 = k
    · simp only [mapSet, if_pos hpk, mapKeys, List.map_cons, List.mem_cons] at h ⊢
      rcases h with h | h
      · exact Or.inr h
      · exact Or.inl (Or.inr h)
    · simp only [mapSet, if_neg hpk, mapKeys, List.map_cons, List.mem_cons] at h ⊢
      rcases h with h | h
      · exact Or.inl (Or.inl h)
      · rcases ih k v k' (by simpa [mapKeys] using h) with h2 | h2
        · exact Or.inl (Or.inr (by simpa [mapKeys] using h2))
        · exact Or.inr h2

theorem mapKeys_mapSet_nodup {κ α : Type} [DecidableEq κ] :
    ∀ (m : List (κ × α)) (k : κ) (v : α),
      (mapKeys m).Nodup → (mapKeys (mapSet m k v)).Nodup := by
  intro m
  induction m with
  | nil => intro k v _; simp [mapSet, mapKeys]
  | cons p rest ih =>
    intro k v hnd
    simp only [mapKeys, List.map_cons, List.nodup_cons] at hnd
    by_cases hpk : p.1 = k
    · simp only [mapSet, if_pos hpk, mapKeys, List.map_cons, List.nodup_cons]
      exact ⟨hpk ▸ hnd.1, hnd.2⟩
    · simp only [mapSet, if_neg hpk, mapKeys, List.map_cons, List.nodup_cons]
      refine ⟨?_, ih k v hnd.2⟩
      intro hmem
      rcases mem_keys_mapSet rest k v p.1 (by simpa [mapKeys] using hmem) with h | h
      · exact hnd.1 (by simpa [mapKeys] using h)
      · exact hpk h

theorem rl_sweep_get (m' : RLMap) (ws : Int) (k : Str) (hnd : (mapKeys m').Nodup) :
    mapGet (m'.filter (fun kv => !(kv.2.all (fun t => t ≤ ws)))) k = mapGet m' k ∨
      ((∃ s, mapGet m' k = some s ∧ ∀ t ∈ s, t ≤ ws) ∧
       mapGet (m'.filter (fun kv => !(kv.2.all (fun t => t ≤ ws)))) k = none) := by
  rw [mapGet_filter _ _ _ hnd]
  cases hk : mapGet m' k with
  | none => exact Or.inl rfl
  | some s =>
    by_cases hq : s.all (fun t => t ≤ ws)
    · right
      refine ⟨⟨s, rfl, fun t ht => by simpa using List.all_eq_true.mp hq t ht⟩, ?_⟩
      simp [hq]
    · left
      simp [hq]

theorem rl_state_reject_nosweep (m : RLMap) (ip : Str) (now : Int)
    (hlen : ¬ ((((mapGet m ip).getD []).filter
      (fun ts => now - RATE_LIMIT_WINDOW_MS < ts)).length < RATE_LIMIT_REQUESTS)) :
    (checkRateLimit m ip now false).2 = m := by
  rw [checkRateLimit_state_eq]
  simp [hlen]

theorem rl_state_reject_sweep (m : RLMap) (ip : Str) (now : Int)
    (hlen : ¬ ((((mapGet m ip).getD []).filter
      (fun ts => now - RATE_LIMIT_WINDOW_MS < ts)).length < RATE_LIMIT_REQUESTS)) :
    (checkRateLimit m ip now true).2 =
      m.filter (fun kv => !(kv.2.all (fun t => t ≤ now - RATE_LIMIT_WINDOW_MS))) := by
  rw [checkRateLimit_state_eq]
  simp [hlen]

theorem rl_state_admit_nosweep (m : RLMap) (ip : Str) (now : Int)
    (hlen : (((mapGet m ip).getD []).filter
      (fun ts => now - RATE_LIMIT_WINDOW_MS < ts)).length < RATE_LIMIT_REQUESTS) :
    (checkRateLimit m ip now false).2 =
      mapSet m ip ((((mapGet m ip).getD []).filter
        (fun ts => now - RATE_LIMIT_WINDOW_MS < ts)) ++ [now]) := by
  rw [checkRateLimit_state_eq]
  simp [hlen]

theorem rl_state_admit_sweep (m : RLMap) (ip : Str) (now : Int)
    (hlen : (((mapGet m ip).getD []).filter
      (fun ts => now - RATE_LIMIT_WINDOW_MS < ts)).length < RATE_LIMIT_REQUESTS) :
    (checkRateLimit m ip now true).2 =
      (mapSet m ip ((((mapGet m ip).getD []).filter
        (fun ts => now - RATE_LIMIT_WINDOW_MS < ts)) ++ [now])).filter
        (fun kv => !(kv.2.all (fun t => t ≤ now - RATE_LIMIT_WINDOW_MS))) := by
  rw [checkRateLimit_state_eq]
  simp [hlen]

/-- C10: a rejected call leaves the stored timestamp list of the rejected
client unchanged (neither appending the timestamp nor writing back the
pruned list), and touches other clients only through the sweep, which
deletes exactly clients all of whose stored timestamps have left the
window; an admitted call changes the client's entry to its pruned list with
the current timestamp appended and touches other clients only through the
same sweep. -/
theorem C10_reject_frame (m : RLMap) (ip : Str) (now : Int) (sweep : Bool)
    (hnd : (mapKeys m).Nodup) :
    ((checkRateLimit m ip now sweep).1.allowed = false →
      mapGet (checkRateLimit m ip now sweep).2 ip = mapGet m ip ∧
      (∀ k, mapGet (checkRateLimit m ip now sweep).2 k = mapGet m k ∨
        (sweep = true ∧
         (∃ s, mapGet m k = some s ∧ ∀ t ∈ s, t ≤ now - RATE_LIMIT_WINDOW_MS) ∧
         mapGet (checkRateLimit m ip now sweep).2 k = none))) ∧
    ((checkRateLimit m ip now sweep).1.allowed = true →
      mapGet (checkRateLimit m ip now sweep).2 ip =
        some ((((mapGet m ip).getD []).filter
          (fun ts => now - RATE_LIMIT_WINDOW_MS < ts)) ++ [now]) ∧
      (∀ k, k ≠ ip →
        mapGet (checkRateLimit m ip now sweep).2 k = mapGet m k ∨
        (sweep = true ∧
         (∃ s, mapGet m k = some s ∧ ∀ t ∈ s, t ≤ now - RATE_LIMIT_WINDOW_MS) ∧
         mapGet (checkRateLimit m ip now sweep).2 k = none))) := by
  have hnow : ¬ ((now : Int) ≤ now - RATE_LIMIT_WINDOW_MS) := by
    unfold RATE_LIMIT_WINDOW_MS; omega
  constructor
  · intro hrej
    rw [checkRateLimit_allowed_eq] at hrej
    have hlen : ¬ ((((mapGet m ip).getD []).filter
        (fun ts => now - RATE_LIMIT_WINDOW_MS < ts)).length < RATE_LIMIT_REQUESTS) :=
      of_decide_eq_false hrej
    obtain ⟨s, hmg, hge⟩ : ∃ s, mapGet m ip = some s ∧
        RATE_LIMIT_REQUESTS ≤ (s.filter (fun ts => now - RATE_LIMIT_WINDOW_MS < ts)).length := by
      cases hmg : mapGet m ip with
      | none =>
        rw [hmg] at hlen
        simp [RATE_LIMIT_REQUESTS] at hlen
      | some s =>
        rw [hmg] at hlen
        exact ⟨s, rfl, by simpa using Nat.le_of_not_lt hlen⟩
    have hkeep : (s.all (fun t => t ≤ now - RATE_LIMIT_WINDOW_MS)) = false := by
      have hne : s.filter (fun ts => now - RATE_LIMIT_WINDOW_MS < ts) ≠ [] := by
        intro h
        rw [h] at hge
        simp [RATE_LIMIT_REQUESTS] at hge
      obtain ⟨t, htmem⟩ := List.exists_mem_of_ne_nil _ hne
      have ht := List.mem_filter.mp htmem
      cases hall : s.all (fun t => t ≤ now - RATE_LIMIT_WINDOW_MS) with
      | false => rfl
      | true =>
        exfalso
        have h1 := List.all_eq_true.mp hall t ht.1
        have h2 := ht.2
        simp at h1 h2
        omega
    cases sweep with
    | false =>
      rw [rl_state_reject_nosweep m ip now hlen]
      exact ⟨rfl, fun k => Or.inl rfl⟩
    | true =>
      rw [rl_state_reject_sweep m ip now hlen]
      constructor
      · rw [mapGet_filter _ _ _ hnd, hmg]
        simp [hkeep]
      · intro k
        rcases rl_sweep_get m (now - RATE_LIMIT_WINDOW_MS) k hnd with h | h
        · exact Or.inl h
        · exact Or.inr ⟨rfl, h.1, h.2⟩
  · intro hadm
    rw [checkRateLimit_allowed_eq] at hadm
    have hlen : (((mapGet m ip).getD []).filter
        (fun ts => now - RATE_LIMIT_WINDOW_MS < ts)).length < RATE_LIMIT_REQUESTS :=
      of_decide_eq_true hadm
    have hnd2 : (mapKeys (mapSet m ip ((((mapGet m ip).getD []).filter
        (fun ts => now - RATE_LIMIT_WINDOW_MS < ts)) ++ [now]))).Nodup :=
      mapKeys_mapSet_nodup m ip _ hnd
    have hgetset : mapGet (mapSet m ip ((((mapGet m ip).getD []).filter
        (fun ts => now - RATE_LIMIT_WINDOW_MS < ts)) ++ [now])) ip =
        some ((((mapGet m ip).getD []).filter
          (fun ts => now - RATE_LIMIT_WINDOW_MS < ts)) ++ [now]) := by
      rw [mapGet_mapSet, if_pos rfl]
    cases sweep with
    | false =>
      rw [rl_state_admit_nosweep m ip now hlen]
      refine ⟨hgetset, fun k hk => Or.inl ?_⟩
      rw [mapGet_mapSet, if_neg (fun h => hk h.symm)]
    | true =>
      rw [rl_state_admit_sweep m ip now hlen]
      constructor
      · rw [mapGet_filter _ _ _ hnd2, hgetset]
        have hallf : ((((mapGet m ip).getD []).filter
            (fun ts => now - RATE_LIMIT_WINDOW_MS < ts)) ++ [now]).all
            (fun t => t ≤ now - RATE_LIMIT_WINDOW_MS) = false := by
          simp [List.all_append, hnow]
        simp [hallf]
      · intro k hk
        have hswap : mapGet (mapSet m ip ((((mapGet m ip).getD []).filter
            (fun ts => now - RATE_LIMIT_WINDOW_MS < ts)) ++ [now])) k = mapGet m k := by
          rw [mapGet_mapSet, if_neg (fun h => hk h.symm)]
        rcases rl_sweep_get (mapSet m ip ((((mapGet m ip).getD []).filter
            (fun ts => now - RATE_LIMIT_WINDOW_MS < ts)) ++ [now]))
            (now - RATE_LIMIT_WINDOW_MS) k hnd2 with h | h
        · exact Or.inl (h.trans hswap)
        · rw [hswap] at h
          exact Or.inr ⟨rfl, h.1, h.2⟩

/-- Witness: a client with 100 fresh timestamps is rejected and its entry
is untouched. -/
theorem C10_reject_frame_witness :
    ((mapKeys [((strL "b"), List.replicate 100 (5 : Int))]).Nodup) ∧
    (((checkRateLimit [((strL "b"), List.replicate 100 (5 : Int))]
        (strL "b") 10 false).1.allowed = false →
      mapGet (checkRateLimit [((strL "b"), List.replicate 100 (5 : Int))]
        (strL "b") 10 false).2 (strL "b") =
        mapGet [((strL "b"), List.replicate 100 (5 : Int))] (strL "b") ∧
      (∀ k, mapGet (checkRateLimit [((strL "b"), List.replicate 100 (5 : Int))]
          (strL "b") 10 false).2 k =
          mapGet [((strL "b"), List.replicate 100 (5 : Int))] k ∨
        (false = true ∧
         (∃ s, mapGet [((strL "b"), List.replicate 100 (5 : Int))] k = some s ∧
           ∀ t ∈ s, t ≤ 10 - RATE_LIMIT_WINDOW_MS) ∧
         mapGet (checkRateLimit [((strL "b"), List.replicate 100 (5 : Int))]
           (strL "b") 10 false).2 k = none))) ∧
     ((checkRateLimit [((strL "b"), List.replicate 100 (5 : Int))]
        (strL "b") 10 false).1.allowed = true →
      mapGet (checkRateLimit [((strL "b"), List.replicate 100 (5 : Int))]
        (strL "b") 10 false).2 (strL "b") =
        some ((((mapGet [((strL "b"), List.replicate 100 (5 : Int))] (strL "b")).getD
          []).filter (fun ts => 10 - RATE_LIMIT_WINDOW_MS < ts)) ++ [10]) ∧
      (∀ k, k ≠ strL "b" →
        mapGet (checkRateLimit [((strL "b"), List.replicate 100 (5 : Int))]
          (strL "b") 10 false).2 k =
          mapGet [((strL "b"), List.replicate 100 (5 : Int))] k ∨
        (false = true ∧
         (∃ s, mapGet [((strL "b"), List.replicate 100 (5 : Int))] k = some s ∧
           ∀ t ∈ s, t ≤ 10 - RATE_LIMIT_WINDOW_MS) ∧
         mapGet (checkRateLimit [((strL "b"), List.replicate 100 (5 : Int))]
           (strL "b") 10 false).2 k = none)))) :=
  ⟨by decide,
   C10_reject_frame [((strL "b"), List.replicate 100 (5 : Int))] (strL "b") 10 false
     (by decide)⟩

-- ## Digit-character lemmas (numeric fast-path analysis for C8 and C1)

theorem digit_toLower (c : Char) (h : c.isDigit = true) : c.toLower = c := by
  unfold Char.toLower
  unfold Char.isDigit at h
  simp at h
  obtain ⟨h1, h2⟩ := h
  rw [if_neg]
  intro hcon
  obtain ⟨h3, h4⟩ := hcon
  simp [Char.toNat] at h3 h4
  have h2' : c.val.toNat ≤ 57 := h2
  omega

theorem digit_not_space (c : Char) (h : c.isDigit = true) : jsSpace c = false := by
  cases hsp : jsSpace c with
  | false => rfl
  | true =>
    exfalso
    simp only [jsSpace, Bool.or_eq_true, decide_eq_true_eq] at hsp
    rcases hsp with ((((h' | h') | h') | h') | h') | h' <;> subst h' <;> simp at h

theorem digit_word (c : Char) (h : c.isDigit = true) : isWordCharJs c = true := by
  unfold Char.isDigit at h
  simp at h
  obtain ⟨h1, h2⟩ := h
  simp only [isWordCharJs, Bool.or_eq_true, Bool.and_eq_true, decide_eq_true_eq]
  left
  right
  exact ⟨h1, h2⟩

theorem digit_not_quote (c : Char) (h : c.isDigit = true) :
    (c = Char.ofNat 39 || c = Char.ofNat 34) = false := by
  cases hq : (c = Char.ofNat 39 || c = Char.ofNat 34) with
  | false => rfl
  | true =>
    exfalso
    simp only [Bool.or_eq_true, decide_eq_true_eq] at hq
    rcases hq with h' | h' <;> subst h' <;> simp at h

theorem trimJs_all_nonspace (s : Str) (h : ∀ c ∈ s, jsSpace c = false) : trimJs s = s := by
  have hdrop : ∀ l : Str, (∀ c ∈ l, jsSpace c = false) → l.dropWhile jsSpace = l := by
    intro l hl
    cases l with
    | nil => rfl
    | cons c rest =>
      rw [List.dropWhile_cons, if_neg]
      simp [hl c (List.mem_cons_self _ _)]
  unfold trimJs
  rw [hdrop s h, hdrop s.reverse (fun c hc => h c (List.mem_reverse.mp hc)), List.reverse_reverse]

theorem collapseWs_all_nonspace (s : Str) (h : ∀ c ∈ s, jsSpace c = false) :
    collapseWs s = s := by
  induction s with
  | nil => rfl
  | cons c rest ih =>
    have hc : jsSpace c = false := h c (List.mem_cons_self _ _)
    simp only [collapseWs, hc, Bool.false_eq_true, if_false]
    rw [ih (fun x hx => h x (List.mem_cons_of_mem _ hx))]

/-- On an all-digit string the whole cleaning pipeline is the identity. -/
theorem numeric_cleaned (raw : Str) (h : isNumericStr raw = true) :
    trimJs (collapseWs (specialsToSpace (removeQuotes (toLowerStr (trimJs raw))))) = raw := by
  have hall : ∀ c ∈ raw, c.isDigit = true := by
    unfold isNumericStr at h
    simp only [Bool.and_eq_true, List.all_eq_true] at h
    exact h.2
  have h1 : trimJs raw = raw :=
    trimJs_all_nonspace raw (fun c hc => digit_not_space c (hall c hc))
  have h2 : toLowerStr raw = raw := by
    unfold toLowerStr
    rw [List.map_congr_left (fun c hc => digit_toLower c (hall c hc))]
    exact List.map_id raw
  have h3 : removeQuotes raw = raw := by
    unfold removeQuotes
    apply List.filter_eq_self.mpr
    intro c hc
    simp [digit_not_quote c (hall c hc)]
  have h4 : specialsToSpace raw = raw := by
    unfold specialsToSpace
    rw [List.map_congr_left (fun c hc => by rw [if_pos]; simp [digit_word c (hall c hc)])]
    exact List.map_id raw
  have h5 : collapseWs raw = raw :=
    collapseWs_all_nonspace raw (fun c hc => digit_not_space c (hall c hc))
  rw [h1, h2, h3, h4, h5, h1]

theorem varsFold_ne_nil :
    ∀ (terms : List Str) (init : List Str), init ≠ [] →
      terms.foldl (fun acc term =>
        if (TECH_BRANDS.contains term || hasDigitStr term) && !acc.contains term
        then acc ++ [term] else acc) init ≠ [] := by
  intro terms
  induction terms with
  | nil => intro init h; exact h
  | cons t rest ih =>
    intro init h
    simp only [List.foldl_cons]
    apply ih
    split
    · simp
    · exact h

theorem dedupFirst_ne_nil {α : Type} [DecidableEq α] (l : List α) (h : l ≠ []) :
    dedupFirst l ≠ [] := by
  cases l with
  | nil => exact absurd rfl h
  | cons a rest => exact dedupFirst_cons_ne_nil a rest

theorem nq_variations_ne_of_cleaned (q : Str)
    (h : trimJs (collapseWs (specialsToSpace (removeQuotes (toLowerStr (trimJs q))))) ≠ []) :
    (normalizeSearchQuery q).variations ≠ [] := by
  have hie : (trimJs (collapseWs (specialsToSpace
      (removeQuotes (toLowerStr (trimJs q)))))).isEmpty = false := by
    cases hq : trimJs (collapseWs (specialsToSpace (removeQuotes (toLowerStr (trimJs q))))) with
    | nil => exact absurd hq h
    | cons a b => rfl
  simp only [normalizeSearchQuery, hie, Bool.false_eq_true, if_false]
  apply dedupFirst_ne_nil
  apply varsFold_ne_nil
  simp

theorem numeric_variations_ne (raw : Str) (h : isNumericStr raw = true) :
    (normalizeSearchQuery raw).variations ≠ [] := by
  apply nq_variations_ne_of_cleaned
  rw [numeric_cleaned raw h]
  intro hnil
  rw [hnil] at h
  simp [isNumericStr] at h

-- ## C8: empty query and empty variations fail without upstream calls

/-- C8: a query that trims to the empty string makes `searchProducts` fail
immediately with the ask-for-a-product message and an empty upstream trace;
a nonempty query whose normalization yields no variations fails with the
no-searchable-terms message, likewise with an empty upstream trace. -/
theorem C8_no_upstream_calls (B : SearchBackend) (query : Str) (limitArg : Option Int) :
    (trimJs query = [] →
      searchProducts B query limitArg = (.fail .emptyQuery, [])) ∧
    ((normalizeSearchQuery (trimJs query)).variations = [] → trimJs query ≠ [] →
      searchProducts B query limitArg = (.fail .noSearchableTerms, [])) := by
  constructor
  · intro h
    simp [searchProducts, h]
  · intro hvar hne
    have hnum : isNumericStr (trimJs query) = false := by
      cases hn : isNumericStr (trimJs query) with
      | false => rfl
      | true => exact absurd hvar (numeric_variations_ne _ hn)
    have hie : (trimJs query).isEmpty = false := by
      cases hq : trimJs query with
      | nil => exact absurd hq hne
      | cons a b => rfl
    simp [searchProducts, hie, hnum, searchMain, hvar]

def wB : SearchBackend where
  direct := fun _ => none
  search := fun _ => [1]
  details := fun _ => [{ id := 1, name := .strName (strL "asus laptop"), price := strL "5" }]

/-- Witness: a whitespace-only query and a symbols-only query. -/
theorem C8_no_upstream_calls_witness :
    (trimJs (strL "   ") = [] ∧
     searchProducts wB (strL "   ") none = (.fail .emptyQuery, [])) ∧
    ((normalizeSearchQuery (trimJs (strL "!!!"))).variations = [] ∧
     trimJs (strL "!!!") ≠ [] ∧
     searchProducts wB (strL "!!!") none = (.fail .noSearchableTerms, [])) :=
  ⟨⟨by decide, (C8_no_upstream_calls wB (strL "   ") none).1 (by decide)⟩,
   ⟨by decide, by decide,
    (C8_no_upstream_calls wB (strL "!!!") none).2 (by decide) (by decide)⟩⟩

-- ## C9 support: result-length bounds

theorem finalizeProducts_length (l : List PSProduct) (ps : List OutProduct)
    (h : finalizeProducts l = .ok ps) : ps.length = l.length := by
  simp only [finalizeProducts, SPOut.ok.injEq] at h
  rw [← h]
  simp

theorem jsSliceEnd_length_le {α : Type} (e : Int) (he : 0 ≤ e) (l : List α) :
    (jsSliceEnd e l).length ≤ e.toNat := by
  unfold jsSliceEnd
  rw [if_neg (by omega)]
  simp [List.length_take]

theorem spOrdered_length_le (B : SearchBackend) (raw : Str) (limit : Int) :
    (spOrdered B raw limit).length ≤ (spSortedIds B raw limit).length :=
  List.length_filterMap_le _ _

theorem spSortedIds_length_le (B : SearchBackend) (raw : Str) (limit : Int)
    (h : 0 ≤ spFetchLimit raw limit) :
    (spSortedIds B raw limit).length ≤ (spFetchLimit raw limit).toNat := by
  unfold spSortedIds
  simp only [List.length_map]
  exact jsSliceEnd_length_le _ h _

theorem searchMain_ok_length (B : SearchBackend) (raw : Str) (limit : Int)
    (trace0 : List UpCall) (ps : List OutProduct) (trace : List UpCall)
    (hpos : 0 ≤ limit)
    (hok : searchMain B raw limit trace0 = (.ok ps, trace)) :
    ps.length ≤ limit.toNat := by
  by_cases h1 : (normalizeSearchQuery raw).variations.isEmpty
  · simp [searchMain, h1] at hok
  · by_cases h2 : (spScores B raw).length = 0
    · simp [searchMain, h1, h2] at hok
    · by_cases h3 : (spFetched B raw limit).isEmpty
      · simp [searchMain, h1, h2, h3] at hok
      · by_cases h4 : spHasBrand raw
        · by_cases h5 : (spFiltered B raw limit).isEmpty
          · simp [searchMain, h1, h2, h3, h4, h5] at hok
          · simp only [searchMain, h1, h2, h3, h4, h5, Bool.false_eq_true, if_false,
              if_true, Prod.mk.injEq] at hok
            rw [finalizeProducts_length _ _ hok.1]
            exact jsSliceEnd_length_le limit hpos _
        · simp only [searchMain, h1, h2, h3, h4, Bool.false_eq_true, if_false,
            if_true, Prod.mk.injEq] at hok
          rw [finalizeProducts_length _ _ hok.1]
          calc (spOrdered B raw limit).length
              ≤ (spSortedIds B raw limit).length := spOrdered_length_le B raw limit
            _ ≤ (spFetchLimit raw limit).toNat := by
                apply spSortedIds_length_le
                unfold spFetchLimit
                rw [if_neg (by simp [h4])]
                exact hpos
            _ = limit.toNat := by
                unfold spFetchLimit
                rw [if_neg (by simp [h4])]

theorem searchProducts_ok_length (B : SearchBackend) (query : Str) (limitArg : Option Int)
    (ps : List OutProduct) (trace : List UpCall)
    (hok : searchProducts B query limitArg = (.ok ps, trace))
    (hpos : 0 ≤ spLimit limitArg) :
    ps.length ≤ (spLimit limitArg).toNat ∨ ps.length = 1 := by
  by_cases hq0 : (trimJs query).isEmpty
  · simp [searchProducts, hq0] at hok
  · by_cases hn : isNumericStr (trimJs query)
    · cases hd : B.direct (trimJs query) with
      | some p =>
        simp only [searchProducts, hq0, hn, hd, Bool.false_eq_true, if_false, if_true,
          Prod.mk.injEq, SPOut.ok.injEq] at hok
        right
        rw [← hok.1]
        rfl
      | none =>
        simp only [searchProducts, hq0, hn, hd, Bool.false_eq_true, if_false,
          if_true] at hok
        exact Or.inl (searchMain_ok_length B _ _ _ ps trace hpos hok)
    · simp only [searchProducts, hq0, hn, Bool.false_eq_true, if_false] at hok
      exact Or.inl (searchMain_ok_length B _ _ _ ps trace hpos hok)

-- ## C9: the requested limit is clamped to at most 10 and defaults to 5

/-- C9: every successful `searchProducts` result returns at most 5 products
when the limit argument is absent or zero, and at most `min limit 10`
products when a positive limit is supplied, on the numeric fast path and
both text-search paths alike. -/
theorem C9_limit_clamp (B : SearchBackend) (query : Str) (limitArg : Option Int)
    (ps : List OutProduct) (trace : List UpCall)
    (hok : searchProducts B query limitArg = (.ok ps, trace)) :
    (limitArg = none → ps.length ≤ 5) ∧
    (limitArg = some 0 → ps.length ≤ 5) ∧
    (∀ k : Int, 0 < k → limitArg = some k → (ps.length : Int) ≤ min k 10) := by
  refine ⟨?_, ?_, ?_⟩
  · intro hla
    subst hla
    have hlim : spLimit none = 5 := by decide
    have hb := searchProducts_ok_length B query none ps trace hok (by rw [hlim]; omega)
    rw [hlim] at hb
    rcases hb with hb | hb <;> omega
  · intro hla
    subst hla
    have hlim : spLimit (some 0) = 5 := by decide
    have hb := searchProducts_ok_length B query (some 0) ps trace hok (by rw [hlim]; omega)
    rw [hlim] at hb
    rcases hb with hb | hb <;> omega
  · intro k hk hla
    subst hla
    have hlim : spLimit (some k) = min k 10 := by
      unfold spLimit VOICE_SEARCH_MAX
      simp only []
      rw [if_neg (by omega)]
    have hb := searchProducts_ok_length B query (some k) ps trace hok (by rw [hlim]; omega)
    rw [hlim] at hb
    rcases hb with hb | hb <;> omega

/-- Witness: a brand-free query returning one product under the default limit. -/
theorem C9_limit_clamp_witness :
    (searchProducts wB (strL "mouse") none =
      (.ok [{ id := 1, name := strL "asus laptop" }],
       [UpCall.search (strL "mouse"), UpCall.details [1]])) ∧
    ((none = (none : Option Int) →
       ([{ id := 1, name := strL "asus laptop" }] : List OutProduct).length ≤ 5) ∧
     ((none : Option Int) = some 0 →
       ([{ id := 1, name := strL "asus laptop" }] : List OutProduct).length ≤ 5) ∧
     (∀ k : Int, 0 < k → (none : Option Int) = some k →
       (([{ id := 1, name := strL "asus laptop" }] : List OutProduct).length : Int) ≤
         min k 10)) :=
  ⟨by decide,
   C9_limit_clamp wB (strL "mouse") none
     [{ id := 1, name := strL "asus laptop" }]
     [UpCall.search (strL "mouse"), UpCall.details [1]] (by decide)⟩

-- ## C2 support: properties of the scoring folds

theorem mapSet_ne_nil {κ α : Type} [DecidableEq κ] (m : List (κ × α)) (k : κ) (v : α) :
    mapSet m k v ≠ [] := by
  cases m with
  | nil => simp [mapSet]
  | cons p rest =>
    simp only [mapSet]
    split <;> simp

theorem length_le_mapSet {κ α : Type} [DecidableEq κ] :
    ∀ (m : List (κ × α)) (k : κ) (v : α), m.length ≤ (mapSet m k v).length := by
  intro m
  induction m with
  | nil => intro k v; simp [mapSet]
  | cons p rest ih =>
    intro k v
    simp only [mapSet]
    split
    · simp
    · simpa using ih k v

theorem scoreSeed_cons (m : List (Nat × Nat)) (a : Nat) (rest : List Nat) :
    scoreSeed m (a :: rest) = scoreSeed (mapSet m a 1) rest := rfl

theorem scoreSeed_get :
    ∀ (seed : List Nat) (m : List (Nat × Nat)) (id : Nat),
      mapGet (scoreSeed m seed) id = if id ∈ seed then some 1 else mapGet m id := by
  intro seed
  induction seed with
  | nil => intro m id; simp [scoreSeed]
  | cons a rest ih =>
    intro m id
    rw [scoreSeed_cons, ih]
    by_cases hid : id = a
    · subst hid
      by_cases hmem : id ∈ rest
      · simp [hmem]
      · simp [hmem, mapGet_mapSet]
    · by_cases hmem : id ∈ rest
      · simp [hmem, hid]
      · simp only [hmem, Bool.false_eq_true, if_false, List.mem_cons, hid, false_or]
        rw [mapGet_mapSet, if_neg (fun h => hid h.symm)]

theorem keys_mapSet_toFinset {κ α : Type} [DecidableEq κ] :
    ∀ (m : List (κ × α)) (k : κ) (v : α),
      (mapKeys (mapSet m k v)).toFinset = insert k (mapKeys m).toFinset := by
  intro m
  induction m with
  | nil => intro k v; simp [mapSet, mapKeys]
  | cons p rest ih =>
    intro k v
    by_cases hpk : p.1 = k
    · rw [show mapSet (p :: rest) k v = (k, v) :: rest from by simp [mapSet, hpk]]
      simp [mapKeys, hpk]
    · simp only [mapSet, if_neg hpk, mapKeys, List.map_cons, List.toFinset_cons]
      rw [show (mapSet rest k v).map Prod.fst = mapKeys (mapSet rest k v) from rfl, ih]
      rw [show rest.map Prod.fst = mapKeys rest from rfl]
      exact Finset.Insert.comm p.1 k (mapKeys rest).toFinset

theorem scoreSeed_length :
    ∀ (seed : List Nat) (m : List (Nat × Nat)), (mapKeys m).Nodup →
      (scoreSeed m seed).length = ((mapKeys m).toFinset ∪ seed.toFinset).card := by
  intro seed
  induction seed with
  | nil =>
    intro m hnd
    have h1 : (scoreSeed m []).length = m.length := rfl
    have h2 : m.length = (mapKeys m).length := by simp [mapKeys]
    rw [h1, h2, ← List.toFinset_card_of_nodup hnd]
    simp
  | cons a rest ih =>
    intro m hnd
    rw [scoreSeed_cons, ih (mapSet m a 1) (mapKeys_mapSet_nodup m a 1 hnd),
      keys_mapSet_toFinset]
    congr 1
    ext x
    simp
    try tauto

theorem scoreSeed_nil_length (seed : List Nat) :
    (scoreSeed [] seed).length = seed.toFinset.card := by
  rw [scoreSeed_length seed [] (by simp [mapKeys])]
  simp [mapKeys]

theorem scoreAdd_cons (m : List (Nat × Nat)) (a : Nat) (rest : List Nat) :
    scoreAdd m (a :: rest) = scoreAdd (mapSet m a ((mapGet m a).getD 0 + 1)) rest := rfl

theorem scoreAdd_get :
    ∀ (ids : List Nat), ids.Nodup → ∀ (m : List (Nat × Nat)) (id : Nat),
      mapGet (scoreAdd m ids) id =
        if id ∈ ids then some ((mapGet m id).getD 0 + 1) else mapGet m id := by
  intro ids
  induction ids with
  | nil => intro _ m id; simp [scoreAdd]
  | cons a rest ih =>
    intro hnd m id
    rw [List.nodup_cons] at hnd
    rw [scoreAdd_cons, ih hnd.2]
    by_cases hid : id = a
    · subst hid
      rw [if_neg (fun h => hnd.1 h), if_pos (List.mem_cons_self _ _)]
      rw [mapGet_mapSet, if_pos rfl]
    · have hget : mapGet (mapSet m a ((mapGet m a).getD 0 + 1)) id = mapGet m id := by
        rw [mapGet_mapSet, if_neg (fun h => hid h.symm)]
      by_cases hmem : id ∈ rest
      · rw [if_pos hmem, if_pos (List.mem_cons_of_mem _ hmem), hget]
      · rw [if_neg hmem, if_neg (by simp [hid, hmem]), hget]

theorem scoreFold_get (searchFn : Str → List Nat) (hnd : ∀ q, (searchFn q).Nodup) :
    ∀ (vs : List Str) (m : List (Nat × Nat)) (id : Nat),
      mapGet (vs.foldl (fun m v => scoreAdd m (searchFn v)) m) id =
        (match mapGet m id with
         | some s => some (s + vs.countP (fun v => decide (id ∈ searchFn v)))
         | none =>
           if vs.countP (fun v => decide (id ∈ searchFn v)) = 0 then none
           else some (vs.countP (fun v => decide (id ∈ searchFn v)))) := by
  intro vs
  induction vs with
  | nil =>
    intro m id
    simp only [List.foldl_nil, List.countP_nil]
    cases mapGet m id <;> simp
  | cons v rest ih =>
    intro m id
    simp only [List.foldl_cons]
    rw [ih, scoreAdd_get (searchFn v) (hnd v)]
    by_cases hmem : id ∈ searchFn v
    · rw [if_pos hmem]
      have hcnt : (v :: rest).countP (fun v => decide (id ∈ searchFn v)) =
          rest.countP (fun v => decide (id ∈ searchFn v)) + 1 := by
        rw [List.countP_cons]
        simp [hmem]
      rw [hcnt]
      cases hm : mapGet m id with
      | some s => simp only [Option.getD_some]; congr 1; omega
      | none =>
        simp only [Option.getD_none]
        rw [if_neg (by omega)]
        congr 1
        omega
    · rw [if_neg hmem]
      have hcnt : (v :: rest).countP (fun v => decide (id ∈ searchFn v)) =
          rest.countP (fun v => decide (id ∈ searchFn v)) := by
        rw [List.countP_cons]
        simp [hmem]
      rw [hcnt]

theorem length_le_scoreAdd :
    ∀ (ids : List Nat) (m : List (Nat × Nat)), m.length ≤ (scoreAdd m ids).length := by
  intro ids
  induction ids with
  | nil => intro m; exact le_rfl
  | cons a rest ih =>
    intro m
    rw [scoreAdd_cons]
    exact le_trans (length_le_mapSet m a _) (ih _)

theorem scoreAdd_eq_nil_iff (m : List (Nat × Nat)) (ids : List Nat) :
    scoreAdd m ids = [] ↔ m = [] ∧ ids = [] := by
  constructor
  · intro h
    cases ids with
    | nil => exact ⟨h, rfl⟩
    | cons a rest =>
      exfalso
      rw [scoreAdd_cons] at h
      have h1 := length_le_scoreAdd rest (mapSet m a ((mapGet m a).getD 0 + 1))
      rw [h] at h1
      have h2 := mapSet_ne_nil m a ((mapGet m a).getD 0 + 1)
      simp at h1
      exact h2 h1
  · rintro ⟨h1, h2⟩
    subst h1
    subst h2
    rfl

theorem scoreFold_nil_iff (searchFn : Str → List Nat) :
    ∀ (vs : List Str) (m : List (Nat × Nat)),
      (vs.foldl (fun m v => scoreAdd m (searchFn v)) m) = [] ↔
        m = [] ∧ ∀ v ∈ vs, searchFn v = [] := by
  intro vs
  induction vs with
  | nil => intro m; simp
  | cons v rest ih =>
    intro m
    simp only [List.foldl_cons]
    rw [ih, scoreAdd_eq_nil_iff]
    simp only [List.forall_mem_cons]
    tauto

theorem length_le_scoreSeed :
    ∀ (seed : List Nat) (m : List (Nat × Nat)), m.length ≤ (scoreSeed m seed).length := by
  intro seed
  induction seed with
  | nil => intro m; exact le_rfl
  | cons a rest ih =>
    intro m
    rw [scoreSeed_cons]
    exact le_trans (length_le_mapSet m a 1) (ih _)

theorem scoreSeed_nil_iff (seed : List Nat) :
    scoreSeed [] seed = [] ↔ seed = [] := by
  constructor
  · intro h
    cases seed with
    | nil => rfl
    | cons a rest =>
      exfalso
      rw [scoreSeed_cons] at h
      have h1 := length_le_scoreSeed rest (mapSet [] a 1)
      rw [h] at h1
      simp [mapSet] at h1
  · intro h
    subst h
    rfl

-- ## C2: spec-side rendering of the fanout schedule and scores

/-- Spec-side "needs more" threshold: 10 with a brand term, 5 without. -/
def fanoutThreshold (hasBrandTerms : Bool) : Nat := if hasBrandTerms then 10 else 5

/-- Spec-side batch of variations 1-3: run exactly when the number of distinct
seeded product ids is strictly below the threshold and more than one variation
exists. -/
def fanoutBatch1 (searchFn : Str → List Nat) (vars : List Str)
    (hasBrandTerms : Bool) : List Str :=
  if (searchFn (vars.headD [])).toFinset.card < fanoutThreshold hasBrandTerms
      ∧ vars.length > 1
  then (vars.drop 1).take 3 else []

/-- Spec-side fallback batch of variations 4-6: run exactly when the score map
is still empty after the first two steps and more than four variations exist. -/
def fanoutBatch2 (searchFn : Str → List Nat) (vars : List Str)
    (hasBrandTerms : Bool) : List Str :=
  if (searchFn (vars.headD []) = []
        ∧ ∀ v ∈ fanoutBatch1 searchFn vars hasBrandTerms, searchFn v = [])
      ∧ vars.length > 4
  then (vars.drop 4).take 3 else []

/-- Spec-side full schedule: variation 0 first, then the two optional batches. -/
def fanoutTrace (searchFn : Str → List Nat) (vars : List Str)
    (hasBrandTerms : Bool) : List Str :=
  vars.headD [] ::
    (fanoutBatch1 searchFn vars hasBrandTerms ++ fanoutBatch2 searchFn vars hasBrandTerms)

/-- Spec-side score of an id: 1 if variation 0 returned it, plus one per
executed later variation that returned it. -/
def fanoutScoreCount (searchFn : Str → List Nat) (vars : List Str)
    (hasBrandTerms : Bool) (id : Nat) : Nat :=
  (if id ∈ searchFn (vars.headD []) then 1 else 0) +
    (fanoutBatch1 searchFn vars hasBrandTerms
      ++ fanoutBatch2 searchFn vars hasBrandTerms).countP
      (fun v => decide (id ∈ searchFn v))

theorem spFanout_eq (searchFn : Str → List Nat) (vars : List Str)
    (hasBrandTerms : Bool) :
    spFanout searchFn vars hasBrandTerms =
      ((fanoutBatch2 searchFn vars hasBrandTerms).foldl
         (fun m v => scoreAdd m (searchFn v))
         ((fanoutBatch1 searchFn vars hasBrandTerms).foldl
            (fun m v => scoreAdd m (searchFn v))
            (scoreSeed [] (searchFn (vars.headD [])))),
       fanoutTrace searchFn vars hasBrandTerms) := by
  have hcard := scoreSeed_nil_length (searchFn (vars.headD []))
  simp only [spFanout]
  rw [hcard]
  unfold fanoutTrace fanoutBatch2 fanoutBatch1 fanoutThreshold
  by_cases h1 : (searchFn (vars.headD [])).toFinset.card
      < (if hasBrandTerms then 10 else 5) ∧ vars.length > 1
  · simp only [if_pos h1]
    have h2iff : ((((vars.drop 1).take 3).foldl
          (fun m v => scoreAdd m (searchFn v))
          (scoreSeed [] (searchFn (vars.headD [])))).length = 0 ∧ vars.length > 4) ↔
        ((searchFn (vars.headD []) = []
            ∧ ∀ v ∈ (vars.drop 1).take 3, searchFn v = []) ∧ vars.length > 4) := by
      rw [List.length_eq_zero, scoreFold_nil_iff, scoreSeed_nil_iff, and_assoc]
    by_cases h2 : (searchFn (vars.headD []) = []
        ∧ ∀ v ∈ (vars.drop 1).take 3, searchFn v = []) ∧ vars.length > 4
    · simp only [if_pos (h2iff.mpr h2), if_pos h2]
    · simp only [if_neg (fun h => h2 (h2iff.mp h)), if_neg h2]
      simp
  · simp only [if_neg h1]
    have h2iff : ((scoreSeed [] (searchFn (vars.headD []))).length = 0 ∧ vars.length > 4) ↔
        ((searchFn (vars.headD []) = [] ∧ ∀ v ∈ ([] : List Str), searchFn v = [])
          ∧ vars.length > 4) := by
      rw [List.length_eq_zero, scoreSeed_nil_iff]
      simp
    by_cases h2 : (searchFn (vars.headD []) = [] ∧ ∀ v ∈ ([] : List Str), searchFn v = [])
        ∧ vars.length > 4
    · simp only [if_pos (h2iff.mpr h2), if_pos h2]
      simp
    · simp only [if_neg (fun h => h2 (h2iff.mp h)), if_neg h2]
      simp

theorem spFanout_get (searchFn : Str → List Nat) (vars : List Str)
    (hasBrandTerms : Bool) (hnd : ∀ q, (searchFn q).Nodup) (id : Nat) :
    mapGet (spFanout searchFn vars hasBrandTerms).1 id =
      (if fanoutScoreCount searchFn vars hasBrandTerms id = 0 then none
       else some (fanoutScoreCount searchFn vars hasBrandTerms id)) := by
  rw [spFanout_eq]
  dsimp only
  rw [scoreFold_get searchFn hnd, scoreFold_get searchFn hnd, scoreSeed_get]
  unfold fanoutScoreCount
  rw [List.countP_append]
  by_cases hs : id ∈ searchFn (vars.headD [])
  · simp only [if_pos hs]
    rw [if_neg (by omega)]
    congr 1
    omega
  · simp only [if_neg hs, mapGet]
    by_cases hc1 : (fanoutBatch1 searchFn vars hasBrandTerms).countP
        (fun v => decide (id ∈ searchFn v)) = 0
    · rw [if_pos hc1, hc1]
      simp only []
      by_cases hc2 : (fanoutBatch2 searchFn vars hasBrandTerms).countP
          (fun v => decide (id ∈ searchFn v)) = 0
      · rw [if_pos hc2, hc2, if_pos (by omega)]
      · rw [if_neg hc2, if_neg (by omega)]
        congr 1
        omega
    · rw [if_neg hc1]
      simp only []
      rw [if_neg (by omega)]
      congr 1
      omega

/-- C2: in the search fanout, variation 0 is always executed and its ids are
seeded with score 1; variations 1-3 run if and only if the number of distinct
seeded ids is strictly below 10 when a brand term is present (5 otherwise) and
more than one variation exists; variations 4-6 run if and only if the score
map is still empty afterwards and more than four variations exist; and every
id's final score is its seed contribution plus one per executed later
variation whose result list contains it (stated for backends whose per-query
result lists are duplicate-free, matching the claim's one-increment-per-
variation reading). -/
theorem C2_fanout_scoring (searchFn : Str → List Nat) (vars : List Str)
    (hasBrandTerms : Bool) (hnd : ∀ q, (searchFn q).Nodup) :
    (spFanout searchFn vars hasBrandTerms).2 = fanoutTrace searchFn vars hasBrandTerms ∧
    ∀ id, mapGet (spFanout searchFn vars hasBrandTerms).1 id =
      (if fanoutScoreCount searchFn vars hasBrandTerms id = 0 then none
       else some (fanoutScoreCount searchFn vars hasBrandTerms id)) :=
  ⟨by rw [spFanout_eq], fun id => spFanout_get searchFn vars hasBrandTerms hnd id⟩

theorem C2_fanout_scoring_witness :
    (∀ q : Str, ((fun _ => [1] : Str → List Nat) q).Nodup) ∧
    ((spFanout (fun _ => [1]) [strL "a", strL "b"] false).2 =
        fanoutTrace (fun _ => [1]) [strL "a", strL "b"] false ∧
     ∀ id, mapGet (spFanout (fun _ => [1]) [strL "a", strL "b"] false).1 id =
       (if fanoutScoreCount (fun _ => [1]) [strL "a", strL "b"] false id = 0 then none
        else some (fanoutScoreCount (fun _ => [1]) [strL "a", strL "b"] false id))) :=
  ⟨fun _ => List.nodup_singleton 1,
   C2_fanout_scoring (fun _ => [1]) [strL "a", strL "b"] false
     (fun _ => List.nodup_singleton 1)⟩

-- ## C1 support: numeric queries carry no brand terms; ordered products come
-- from the fetched batch

theorem brands_have_nondigit : ∀ b ∈ TECH_BRANDS, ∃ c ∈ b, c.isDigit = false := by
  decide

theorem numeric_brandTerms (raw : Str) (h : isNumericStr raw = true) :
    spBrandTerms raw = [] := by
  unfold spBrandTerms
  rw [List.filter_eq_nil_iff]
  intro t ht
  have hall : ∀ c ∈ raw, c.isDigit = true := by
    unfold isNumericStr at h
    simp only [Bool.and_eq_true, List.all_eq_true] at h
    exact h.2
  rw [nq_terms_eq] at ht
  have ht2 := List.mem_of_mem_filter ht
  rw [numeric_cleaned raw h,
    jsSplitOn_all_nonsep jsSpace raw (fun c hc => digit_not_space c (hall c hc))] at ht2
  simp only [List.mem_cons, List.not_mem_nil, or_false] at ht2
  subst ht2
  intro hcont
  have hmem : t ∈ TECH_BRANDS := by
    simpa using hcont
  obtain ⟨c, hc, hcd⟩ := brands_have_nondigit t hmem
  rw [hall c hc] at hcd
  exact Bool.noConfusion hcd

theorem mem_of_mapGet_foldl :
    ∀ (l : List PSProduct) (m : List (Nat × PSProduct)) (id : Nat) (p : PSProduct),
      mapGet (l.foldl (fun m p => mapSet m p.id p) m) id = some p →
      p ∈ l ∨ mapGet m id = some p := by
  intro l
  induction l with
  | nil => intro m id p h; exact Or.inr h
  | cons q rest ih =>
    intro m id p h
    simp only [List.foldl_cons] at h
    rcases ih _ _ _ h with h1 | h1
    · exact Or.inl (List.mem_cons_of_mem _ h1)
    · rw [mapGet_mapSet] at h1
      by_cases hq : q.id = id
      · rw [if_pos hq] at h1
        injection h1 with h2
        subst h2
        exact Or.inl (List.mem_cons_self _ _)
      · rw [if_neg hq] at h1
        exact Or.inr h1

theorem spOrdered_subset_fetched (B : SearchBackend) (raw : Str) (limit : Int) :
    ∀ x ∈ spOrdered B raw limit, x ∈ spFetched B raw limit := by
  intro x hx
  unfold spOrdered at hx
  rw [List.mem_filterMap] at hx
  obtain ⟨id, _, hget⟩ := hx
  unfold spProductMap at hget
  rcases mem_of_mapGet_foldl (spFetched B raw limit) [] id x hget with h | h
  · exact h
  · simp [mapGet] at h

/-- C1: when the trimmed query carries at least one recognized brand term,
every product in a successful `searchProducts` answer corresponds to a
fetched product that passes the brand filter (some brand term occurs in the
first 50 characters of its lowercased name); and when the candidate pipeline
is non-empty but the brand filter removes every candidate, `searchProducts`
fails with the brand-mismatch message instead of returning unfiltered
candidates. -/
theorem C1_brand_filter (B : SearchBackend) (query : Str) (limitArg : Option Int)
    (hb : spBrandTerms (trimJs query) ≠ []) :
    (∀ ps trace, searchProducts B query limitArg = (.ok ps, trace) →
      ∀ out ∈ ps, ∃ p ∈ spFetched B (trimJs query) (spLimit limitArg),
        p.id = out.id ∧ brandInPrimary (spBrandTerms (trimJs query)) p = true) ∧
    ((spScores B (trimJs query)).length ≠ 0 →
      (spFetched B (trimJs query) (spLimit limitArg)).isEmpty = false →
      spFiltered B (trimJs query) (spLimit limitArg) = [] →
      (searchProducts B query limitArg).1 =
        .fail (.brandMismatch (spBrandTerms (trimJs query)))) := by
  have htne : trimJs query ≠ [] := by
    intro hq
    rw [hq] at hb
    exact hb (by decide)
  have hne : (trimJs query).isEmpty = false := by
    cases hq : trimJs query with
    | nil => exact absurd hq htne
    | cons a b => rfl
  have hnum : isNumericStr (trimJs query) = false := by
    cases hn : isNumericStr (trimJs query) with
    | false => rfl
    | true => exact absurd (numeric_brandTerms _ hn) hb
  have hvne : (normalizeSearchQuery (trimJs query)).variations ≠ [] := by
    apply nq_variations_ne_of_cleaned
    intro hcl
    apply hb
    unfold spBrandTerms
    rw [show (normalizeSearchQuery (trimJs query)).terms = [] by rw [nq_terms_eq, hcl]; rfl]
    rfl
  have hvarE : (normalizeSearchQuery (trimJs query)).variations.isEmpty = false := by
    cases hv : (normalizeSearchQuery (trimJs query)).variations with
    | nil => exact absurd hv hvne
    | cons a b => rfl
  have hbr : spHasBrand (trimJs query) = true := by
    unfold spHasBrand
    cases hbt : spBrandTerms (trimJs query) with
    | nil => exact absurd hbt hb
    | cons a b => simp
  constructor
  · intro ps trace hok out hout
    simp only [searchProducts, hne, hnum, Bool.false_eq_true, if_false] at hok
    by_cases h2 : (spScores B (trimJs query)).length = 0
    · simp [searchMain, hvarE, h2] at hok
    · by_cases h3 : (spFetched B (trimJs query) (spLimit limitArg)).isEmpty
      · simp [searchMain, hvarE, h2, h3] at hok
      · by_cases h5 : (spFiltered B (trimJs query) (spLimit limitArg)).isEmpty
        · simp [searchMain, hvarE, h2, h3, hbr, h5] at hok
        · simp only [searchMain, hvarE, h2, h3, hbr, h5, Bool.false_eq_true, if_false,
            if_true, Prod.mk.injEq] at hok
          have h6 := hok.1
          simp only [finalizeProducts, SPOut.ok.injEq] at h6
          rw [← h6] at hout
          rw [List.mem_map] at hout
          obtain ⟨p, hp, hout_eq⟩ := hout
          have hpf : p ∈ spFiltered B (trimJs query) (spLimit limitArg) := by
            unfold jsSliceEnd at hp
            exact List.take_subset _ _ hp
          unfold spFiltered at hpf
          rw [List.mem_filter] at hpf
          refine ⟨p, spOrdered_subset_fetched B _ _ p hpf.1, ?_, hpf.2⟩
          rw [← hout_eq]
  · intro hs hf hfil
    simp only [searchProducts, hne, hnum, Bool.false_eq_true, if_false]
    simp [searchMain, hvarE, hs, hf, hbr, hfil]

/-- Witness: the query "asus laptop" carries the brand term "asus". -/
theorem C1_brand_filter_witness :
    spBrandTerms (trimJs (strL "asus laptop")) ≠ [] ∧
    ((∀ ps trace, searchProducts wB (strL "asus laptop") none = (.ok ps, trace) →
        ∀ out ∈ ps, ∃ p ∈ spFetched wB (trimJs (strL "asus laptop")) (spLimit none),
          p.id = out.id ∧
          brandInPrimary (spBrandTerms (trimJs (strL "asus laptop"))) p = true) ∧
     ((spScores wB (trimJs (strL "asus laptop"))).length ≠ 0 →
       (spFetched wB (trimJs (strL "asus laptop")) (spLimit none)).isEmpty = false →
       spFiltered wB (trimJs (strL "asus laptop")) (spLimit none) = [] →
       (searchProducts wB (strL "asus laptop") none).1 =
         .fail (.brandMismatch (spBrandTerms (trimJs (strL "asus laptop")))))) :=
  ⟨by decide, C1_brand_filter wB (strL "asus laptop") none (by decide)⟩
